import Mathlib

/-!
Shallow embedding of the excel-differ comparison engine
(src/js/diffEngine.js, src/js/excelParser.js and the DiffViewer unified
row/column construction) together with spec-side reference definitions,
and proofs settling the frozen claims about the engine.

Modelling conventions:
* A parsed sheet is a `List Row` with `Row = List Value`; position `j` in a
  row corresponds to the spreadsheet column letter `colName j` (the parser
  generates keys `A, B, C, ...` in exactly this order and pads every row to
  the same width, so the object form and the list form carry the same data;
  `row[letter]` for a letter beyond the row's length is JS `undefined`,
  modelled by `Value.vundefined`).
* JS `Map` objects are modelled by insertion-ordered association lists where
  `set` overwrites in place and appends fresh keys, matching iteration order.
* Numeric cell values are modelled by integers; `String(n)` on an integer is
  its decimal representation, which is what the code's string conversions use.
-/

namespace ExcelDiff

/-- Cell values: `null`, `undefined`, strings, (integer) numbers, booleans. -/
inductive Value where
  | vnull
  | vundefined
  | vstr (s : String)
  | vint (n : Int)
  | vbool (b : Bool)
deriving DecidableEq, Repr

/-- JS `String(v)` for the modelled values. -/
def jsStr : Value → String
  | .vnull => "null"
  | .vundefined => "undefined"
  | .vstr s => s
  | .vint n => toString n
  | .vbool b => if b then "true" else "false"

/-- JS `String.prototype.trim()` (leading and trailing whitespace removed),
modelled by structural recursion on the character list so that proofs can
evaluate it. -/
def jsTrim (s : String) : String :=
  ⟨((s.data.dropWhile Char.isWhitespace).reverse.dropWhile Char.isWhitespace).reverse⟩

/-- JS `String.prototype.startsWith`, modelled on the character lists. -/
def jsStartsWith (s pre : String) : Bool := pre.data.isPrefixOf s.data

/-- JS truthiness test (`false` for the falsy values `null`, `undefined`,
`''`, `0`, `false`). -/
def falsy : Value → Bool
  | .vnull => true
  | .vundefined => true
  | .vstr s => s == ""
  | .vint n => n == 0
  | .vbool b => !b

/-- JS `String(v || '')`. -/
def strOrEmpty (v : Value) : String := if falsy v then "" else jsStr v

/-- JS `String(v || '').trim()`. -/
def trimVal (v : Value) : String := jsTrim (strOrEmpty v)

/-- JS strict equality `===` on the modelled values (same type, same value). -/
def jsStrictEq : Value → Value → Bool
  | .vnull, .vnull => true
  | .vundefined, .vundefined => true
  | .vstr a, .vstr b => a == b
  | .vint a, .vint b => a == b
  | .vbool a, .vbool b => a == b
  | _, _ => false

/-- A row of a parsed sheet: cell values in column order. -/
abbrev Row := List Value

/-- JS `row[letter j]`: a missing property reads as `undefined`. -/
def cellAt (r : Row) (j : Nat) : Value := r.getD j .vundefined

/-- The loop of `getColumnName` from excelParser.js on the 1-based dividend,
with explicit fuel (the dividend strictly decreases each step, so a fuel of
the dividend itself always suffices); structural recursion keeps it
kernel-computable. -/
def colNameAux : Nat → Nat → String
  | 0, _ => ""
  | _ + 1, 0 => ""
  | fuel + 1, d + 1 =>
    let m := d % 26
    colNameAux fuel ((d + 1 - m) / 26) ++ (Char.ofNat (65 + m)).toString

/-- `getColumnName`'s loop on the 1-based dividend: 1 ↦ "A", 26 ↦ "Z",
27 ↦ "AA", … -/
def colName1 (d : Nat) : String := colNameAux d d

/-- `ExcelParser.getColumnName` on a 0-based column index. -/
def colName (j : Nat) : String := colName1 (j + 1)

/-! ### JS `Map` model: insertion-ordered association lists -/

/-- `Map.set`: overwrite in place when the key exists, append otherwise. -/
def mapSet (m : List (String × α)) (k : String) (v : α) : List (String × α) :=
  if m.any (fun p => p.1 == k) then
    m.map (fun p => if p.1 == k then (k, v) else p)
  else m ++ [(k, v)]

/-- `Map.get`: value of the unique entry with key `k`, if present. -/
def mapGet? (m : List (String × α)) (k : String) : Option α :=
  (m.find? (fun p => p.1 == k)).map Prod.snd

/-- `Map.has`. -/
def mapHas (m : List (String × α)) (k : String) : Bool := (mapGet? m k).isSome

/-- `Map.delete`. -/
def mapDelete (m : List (String × α)) (k : String) : List (String × α) :=
  m.filter (fun p => !(p.1 == k))

/-- Fold `Map.set` over a pair list, starting from `init`. -/
def buildMapFrom (init : List (String × α)) (ps : List (String × α)) :
    List (String × α) :=
  ps.foldl (fun m p => mapSet m p.1 p.2) init

/-- The map obtained by `set`ting each pair in order into an empty map. -/
def buildMap (ps : List (String × α)) : List (String × α) := buildMapFrom [] ps

/-- Right-to-left lookup in a pair list (the "last write wins" view of
`buildMap`). -/
def revLookup (ps : List (String × α)) (k : String) : Option α :=
  (ps.reverse.find? (fun p => p.1 == k)).map Prod.snd

/-! ### diffEngine.js -/

namespace DiffEngine

/-- One entry of `detectColumnChanges`' output
(`{ column, type: 'added' | 'deleted', header }`). -/
structure ColChange where
  column : String
  type : String
  header : String
deriving DecidableEq, Repr

/-- One entry of `detectRowChanges`' output.  The JS objects carry only one
of the two index properties; an absent property is `none`. -/
structure RowChange where
  rowKey : String
  type : String
  oldRowIndex : Option Nat
  newRowIndex : Option Nat
  row : Row
deriving DecidableEq, Repr

/-- One entry of `compareCells`' output. -/
structure CellDiff where
  row : Nat
  header : String
  oldCol : String
  newCol : String
  oldValue : Value
  newValue : Value
deriving DecidableEq, Repr

/-- The `{ row, index }` records stored in the row maps. -/
structure RowEntry where
  row : Row
  index : Nat
deriving DecidableEq, Repr

/-- The row key used throughout diffEngine.js:
`String(row.A || '').trim() || (prefix + index)`. -/
def rowKeyOf (pfx : String) (row : Row) (idx : Nat) : String :=
  let k := trimVal (cellAt row 0)
  if k = "" then pfx ++ toString idx else k

/-- The `(key, { row, index })` pairs generated while walking the data rows
(rows after the header), with `index = position + 2` (1-based plus header
offset). -/
def rowPairs (pfx : String) (rows : List Row) : List (String × RowEntry) :=
  (List.range rows.length).map fun i =>
    (rowKeyOf pfx (rows.getD i []) i, ⟨rows.getD i [], i + 2⟩)

/-- The `key → { row, index }` map built over the data rows: `Map.set` folded
over `rowPairs`, so a later duplicate key overwrites the earlier row. -/
def buildRowMap (pfx : String) (rows : List Row) : List (String × RowEntry) :=
  buildMap (rowPairs pfx rows)

/-- The `header content → column position` map of `compareCells`
(blank headers are skipped; a duplicate header is overwritten by the
later column). -/
def headerMapOf (hdr : Row) : List (String × Nat) :=
  buildMap ((List.range hdr.length).filterMap fun j =>
    let c := trimVal (cellAt hdr j)
    if c = "" then none else some (c, j))

/-- `DiffEngine.detectColumnChanges`. -/
def detectColumnChanges (oldData newData : List Row) : List ColChange :=
  if oldData.length = 0 || newData.length = 0 then [] else
  let oldHeaders := oldData.getD 0 []
  let newHeaders := newData.getD 0 []
  let oldHeaderSet := (oldHeaders.map trimVal).filter (fun c => c ≠ "")
  let newHeaderSet := (newHeaders.map trimVal).filter (fun c => c ≠ "")
  let oldCols := (List.range oldHeaders.length).map colName
  let newCols := (List.range newHeaders.length).map colName
  let added := (List.range newHeaders.length).filterMap fun j =>
    let content := trimVal (cellAt newHeaders j)
    if content ≠ "" then
      if oldHeaderSet.contains content then none
      else some ⟨colName j, "added", content⟩
    else
      if oldCols.contains (colName j) then none
      else some ⟨colName j, "added", "(Blank Column)"⟩
  let deleted := (List.range oldHeaders.length).filterMap fun j =>
    let content := trimVal (cellAt oldHeaders j)
    if content ≠ "" then
      if newHeaderSet.contains content then none
      else some ⟨colName j, "deleted", content⟩
    else
      if newCols.contains (colName j) then none
      else some ⟨colName j, "deleted", "(Blank Column)"⟩
  added ++ deleted

/-- `DiffEngine.detectRowChanges`: row keys come from column A (with the
`old-`/`new-` positional fallback); a key only in B is added, a key only in
A is deleted. -/
def detectRowChanges (oldData newData : List Row) : List RowChange :=
  let oldRowMap := buildRowMap "old-" (oldData.drop 1)
  let newRowMap := buildRowMap "new-" (newData.drop 1)
  (newRowMap.filterMap fun p =>
    if mapHas oldRowMap p.1 then none
    else some ⟨p.1, "added", none, some p.2.index, p.2.row⟩)
  ++ (oldRowMap.filterMap fun p =>
    if mapHas newRowMap p.1 then none
    else some ⟨p.1, "deleted", some p.2.index, none, p.2.row⟩)

/-- `DiffEngine.compareCells`: for rows matched by key, walk A's header map,
look the header up in B's header map, and record a difference whenever the
two raw cell values are not strictly equal (`!==`). -/
def compareCells (oldData newData : List Row) : List CellDiff :=
  let oldHeaders := oldData.getD 0 []
  let newHeaders := newData.getD 0 []
  let headerToOldCol := headerMapOf oldHeaders
  let headerToNewCol := headerMapOf newHeaders
  let oldRowMap := buildRowMap "old-" (oldData.drop 1)
  let newRowMap := buildRowMap "new-" (newData.drop 1)
  oldRowMap.flatMap fun p =>
    match mapGet? newRowMap p.1 with
    | none => []
    | some ne =>
      headerToOldCol.flatMap fun q =>
        match mapGet? headerToNewCol q.1 with
        | none => []
        | some jn =>
          let oldVal := cellAt p.2.row q.2
          let newVal := cellAt ne.row jn
          if jsStrictEq oldVal newVal then []
          else [⟨p.2.index, q.1, colName q.2, colName jn, oldVal, newVal⟩]

/-- The per-sheet result object of `compareSheets` / `compare`.  The object
returned by `compareSheets` has no `sheetName`/`status` properties; an
absent `status` is `none` and an absent `sheetName` is `""`. -/
structure SheetResult where
  sheetName : String := ""
  status : Option String := none
  differences : List CellDiff := []
  rowChanges : List RowChange := []
  columnChanges : List ColChange := []
  oldData : List Row := []
  newData : List Row := []
deriving DecidableEq, Repr

/-- `DiffEngine.compareSheets`. -/
def compareSheets (oldData newData : List Row) : SheetResult :=
  if oldData.length = 0 || newData.length = 0 then
    { oldData := oldData, newData := newData }
  else
    { differences := compareCells oldData newData
      rowChanges := detectRowChanges oldData newData
      columnChanges := detectColumnChanges oldData newData
      oldData := oldData, newData := newData }

/-- A parsed workbook as consumed by `compare` (only the fields the engine
reads: the sheet-name list and the per-sheet data). -/
structure Workbook where
  sheetNames : List String
  sheets : List (String × List Row)
deriving DecidableEq, Repr

/-- `dataX.sheets[sheetName]?.data || []`. -/
def getSheetData (wb : Workbook) (name : String) : List Row :=
  ((wb.sheets.find? (fun p => p.1 == name)).map Prod.snd).getD []

/-- The summary counters of the engine's `results` object. -/
structure Summary where
  totalSheets : Nat
  modifiedSheets : Nat
  addedSheets : Nat
  deletedSheets : Nat
deriving DecidableEq, Repr

/-- The engine's `this.results` object. -/
structure Results where
  summary : Summary
  sheets : List SheetResult
deriving DecidableEq, Repr

/-- The `results` object as initialised by the `DiffEngine` constructor. -/
def initialResults : Results := ⟨⟨0, 0, 0, 0⟩, []⟩

/-- `new Set(xs)` keeps the first occurrence of each element, in order. -/
def dedupKeep (l : List String) : List String :=
  l.foldl (fun acc n => if acc.contains n then acc else acc ++ [n]) []

/-- The body of the `allSheets.forEach` loop in `compare`: process one sheet
name, pushing its sheet result and bumping the summary counters. -/
def compareStep (a b : Workbook) (res : Results) (name : String) : Results :=
  let inA := a.sheetNames.contains name
  let inB := b.sheetNames.contains name
  if inA && inB then
    let sr0 := compareSheets (getSheetData a name) (getSheetData b name)
    let sr := { sr0 with sheetName := name }
    if sr.differences.length > 0 || sr.rowChanges.length > 0 ||
        sr.columnChanges.length > 0 then
      { summary := { res.summary with
          modifiedSheets := res.summary.modifiedSheets + 1 }
        sheets := res.sheets ++ [{ sr with status := some "modified" }] }
    else
      { res with sheets := res.sheets ++ [sr] }
  else if inB && !inA then
    { summary := { res.summary with addedSheets := res.summary.addedSheets + 1 }
      sheets := res.sheets ++
        [{ sheetName := name, status := some "added", newData := getSheetData b name }] }
  else if inA && !inB then
    { summary := { res.summary with
        deletedSheets := res.summary.deletedSheets + 1 }
      sheets := res.sheets ++
        [{ sheetName := name, status := some "deleted", oldData := getSheetData a name }] }
  else
    { res with sheets := res.sheets ++
        [{ sheetName := name, status := some "unchanged" }] }

/-- `DiffEngine.compare`, with the engine's mutable `this.results` passed as
explicit state.  The result is in `Except` to expose whether the call raises:
the source never throws — missing input logs an error and returns the current
`this.results` unchanged. -/
def compare (results : Results) (dataA dataB : Option Workbook) :
    Except String Results :=
  match dataA, dataB with
  | some a, some b =>
    let allSheets := dedupKeep (a.sheetNames ++ b.sheetNames)
    let r := allSheets.foldl (compareStep a b) results
    .ok { r with summary := { r.summary with totalSheets := allSheets.length } }
  | _, _ => .ok results

end DiffEngine

/-! ### excelParser.js -/

namespace ExcelParser

/-- `ExcelParser.areValuesEqual`: blank values (`null`, `undefined`, `''`)
are mutually equal and never equal a non-blank; otherwise the trimmed
string representations are compared. -/
def areValuesEqual (valueA valueB : Value) : Bool :=
  if valueA = .vnull ∨ valueA = .vundefined ∨ valueA = .vstr "" then
    valueB = .vnull ∨ valueB = .vundefined ∨ valueB = .vstr ""
  else if valueB = .vnull ∨ valueB = .vundefined ∨ valueB = .vstr "" then
    false
  else
    jsTrim (jsStr valueA) == jsTrim (jsStr valueB)

end ExcelParser

/-! ### DiffViewer (unified rows and columns) -/

namespace DiffViewer

/-- One entry of `getAllRows`' unified row list. -/
structure UnifiedRow where
  key : String
  oldRow : Option Row
  oldIndex : Option Nat
  newRow : Option Row
  newIndex : Option Nat
deriving DecidableEq, Repr

/-- One step of `getAllRows`' first loop: insert an A-side row. -/
def oldRowStep (oldRows : List Row) (m : List (String × UnifiedRow)) (i : Nat) :
    List (String × UnifiedRow) :=
  let row := oldRows.getD i []
  let k := DiffEngine.rowKeyOf "old-" row i
  mapSet m k ⟨k, some row, some (i + 2), none, none⟩

/-- One step of `getAllRows`' second loop: attach a B-side row to an existing
entry, or insert a B-only entry. -/
def newRowStep (newRows : List Row) (m : List (String × UnifiedRow)) (i : Nat) :
    List (String × UnifiedRow) :=
  let row := newRows.getD i []
  let k := DiffEngine.rowKeyOf "new-" row i
  match mapGet? m k with
  | some u => mapSet m k { u with newRow := some row, newIndex := some (i + 2) }
  | none => mapSet m k ⟨k, none, none, some row, some (i + 2)⟩

/-- `newRowStep` viewed on a `(key, entry)` pair instead of a row position
(the form used by the proofs). -/
def newPairStep (m : List (String × UnifiedRow))
    (p : String × DiffEngine.RowEntry) : List (String × UnifiedRow) :=
  match mapGet? m p.1 with
  | some u => mapSet m p.1
      { u with newRow := some p.2.row, newIndex := some p.2.index }
  | none => mapSet m p.1 ⟨p.1, none, none, some p.2.row, some p.2.index⟩

/-- `DiffViewer.getAllRows`: the union of A's and B's data rows keyed by
column A (a later row with the same key overwrites the map entry). -/
def getAllRows (oldData newData : List Row) : List UnifiedRow :=
  let oldRows := oldData.drop 1
  let newRows := newData.drop 1
  ((List.range newRows.length).foldl (newRowStep newRows)
    ((List.range oldRows.length).foldl (oldRowStep oldRows) [])).map Prod.snd

/-- One entry of `getUnifiedColumns`' output. -/
structure UnifiedCol where
  header : String
  oldCol : Option String
  newCol : Option String
  type : String
deriving DecidableEq, Repr

/-- One step of `getUnifiedColumns`' first header loop (File A headers). -/
def oldHeaderStep (oldHeaders : Row)
    (m : List (String × (Option String × Option String))) (j : Nat) :
    List (String × (Option String × Option String)) :=
  let content := trimVal (cellAt oldHeaders j)
  if content ≠ "" then mapSet m content (some (colName j), none)
  else mapSet m ("__empty_old_" ++ colName j) (some (colName j), none)

/-- One step of `getUnifiedColumns`' second header loop (File B headers). -/
def newHeaderStep (newHeaders : Row)
    (m : List (String × (Option String × Option String))) (j : Nat) :
    List (String × (Option String × Option String)) :=
  let content := trimVal (cellAt newHeaders j)
  let c := colName j
  if content ≠ "" then
    match mapGet? m content with
    | some p => mapSet m content (p.1, some c)
    | none => mapSet m content (none, some c)
  else
    let oldKey := "__empty_old_" ++ c
    match mapGet? m oldKey with
    | some p => mapSet (mapDelete m oldKey) ("__empty_both_" ++ c) (p.1, some c)
    | none => mapSet m ("__empty_new_" ++ c) (none, some c)

/-- The header map built by `getUnifiedColumns`:
`header content → { oldCol, newCol }` with `__empty_old_X` / `__empty_new_X`
/ `__empty_both_X` keys for blank columns. -/
def headerMap (oldHeaders newHeaders : Row) :
    List (String × (Option String × Option String)) :=
  (List.range newHeaders.length).foldl (newHeaderStep newHeaders)
    ((List.range oldHeaders.length).foldl (oldHeaderStep oldHeaders) [])

/-- Build one output entry from a header-map entry. -/
def mkUnifiedCol (h : String) (m : Option String × Option String)
    (forcedType : Option String) : UnifiedCol :=
  { header := if jsStartsWith h "__empty_" then "(Blank Column)" else h
    oldCol := m.1
    newCol := m.2
    type := match forcedType with
      | some t => t
      | none =>
        if m.1.isSome && m.2.isSome then "normal"
        else if m.1.isSome then "deleted" else "added" }

/-- One step of `getUnifiedColumns`' output loop: emit the first unprocessed
header-map entry whose B column is column `j`. -/
def unifiedColStep (hm : List (String × (Option String × Option String)))
    (acc : List UnifiedCol × List String) (j : Nat) :
    List UnifiedCol × List String :=
  match hm.find? (fun p =>
      p.2.2 == some (colName j) && !(acc.2.contains p.1)) with
  | some p => (acc.1 ++ [mkUnifiedCol p.1 p.2 none], acc.2 ++ [p.1])
  | none => acc

/-- `DiffViewer.getUnifiedColumns`: emit, in File B's column order, the first
unprocessed header-map entry carrying each B column, then append the
remaining (deleted) entries in map order. -/
def getUnifiedColumns (oldData newData : List Row) : List UnifiedCol :=
  let oldHeaders := oldData.getD 0 []
  let newHeaders := newData.getD 0 []
  let hm := headerMap oldHeaders newHeaders
  let step3 := (List.range newHeaders.length).foldl (unifiedColStep hm) ([], [])
  step3.1 ++ ((hm.filter (fun p => !(step3.2.contains p.1))).map fun p =>
    mkUnifiedCol p.1 p.2 (some "deleted"))

end DiffViewer

/-! ### Spec-side reference definitions

These follow the words of the specification (not the code) and exist only to
be compared against the code-derived definitions above in refinement-style
claims. -/

namespace Spec

/-- Spec §4.1 "blank": `null`, `undefined` and the empty string. -/
def isBlankSpec (v : Value) : Bool :=
  v == .vnull || v == .vundefined || v == .vstr ""

/-- Spec §4.1 value equality: blanks are mutually equal, a blank never
equals a non-blank, otherwise the trimmed string representations are
compared. -/
def specEquals (a b : Value) : Bool :=
  if isBlankSpec a && isBlankSpec b then true
  else if isBlankSpec a || isBlankSpec b then false
  else jsTrim (jsStr a) == jsTrim (jsStr b)

/-- A column permutation: entry `j` of the permuted row is entry `σ j` of
the original row (applied to every row, header included). -/
def permuteRow (sigma : List Nat) (r : Row) : Row :=
  sigma.map (fun j => cellAt r j)

/-- A dataset with all columns permuted by `sigma`. -/
def permuteData (sigma : List Nat) (d : List Row) : List Row :=
  d.map (permuteRow sigma)

/-- Spec §4.3: non-blank values of a candidate column, as trimmed strings. -/
def nonBlankVals (vals : List Value) : List String :=
  (vals.filter (fun v => !(isBlankSpec v))).map (fun v => jsTrim (jsStr v))

/-- An exact fraction `(numerator, denominator)` with positive denominator,
used for uniqueness scores so that score comparisons stay computable. -/
abbrev Score := Nat × Nat

/-- `a ≤ b` on score fractions, by cross multiplication. -/
def scoreLe (a b : Score) : Bool := a.1 * b.2 ≤ b.1 * a.2

/-- `a > b` on score fractions, by cross multiplication. -/
def scoreGt (a b : Score) : Bool := b.1 * a.2 < a.1 * b.2

/-- The exact average of two score fractions. -/
def scoreAvg (a b : Score) : Score := (a.1 * b.2 + b.1 * a.2, 2 * (a.2 * b.2))

/-- Spec §4.3 uniqueness score: distinct non-blank values over non-blank
values (0 when the column has no non-blank value). -/
def uniquenessScore (vals : List Value) : Score :=
  let nb := nonBlankVals vals
  if nb.length = 0 then (0, 1)
  else (nb.dedup.length, nb.length)

/-- The values of column `j` over the data rows (header excluded). -/
def columnValues (data : List Row) (j : Nat) : List Value :=
  (data.drop 1).map (fun r => cellAt r j)

/-- A candidate key column: a header present in both datasets, with its
column position in each. -/
structure SpecKeyCol where
  header : String
  colA : Nat
  colB : Nat
deriving DecidableEq, Repr

/-- Spec §4.3 step 2: columns common to A and B (matched by header text),
each with its averaged uniqueness score. -/
def specCommonCols (dataA dataB : List Row) : List (SpecKeyCol × Score) :=
  let hB := DiffEngine.headerMapOf (dataB.getD 0 [])
  (DiffEngine.headerMapOf (dataA.getD 0 [])).filterMap fun p =>
    match mapGet? hB p.1 with
    | some jB => some (⟨p.1, p.2, jB⟩,
        scoreAvg (uniquenessScore (columnValues dataA p.2))
          (uniquenessScore (columnValues dataB jB)))
    | none => none

/-- Insertion into a list sorted by `le` (structural insertion sort,
kernel-computable). -/
def insertRanked (le : α → α → Bool) (p : α) : List α → List α
  | [] => [p]
  | q :: l => if le p q then p :: q :: l else q :: insertRanked le p l

/-- Structural insertion sort by `le`. -/
def sortRanked (le : α → α → Bool) : List α → List α
  | [] => []
  | p :: l => insertRanked le p (sortRanked le l)

/-- Spec §4.3 step 2: the common columns ranked by averaged score,
descending. -/
def specRank (dataA dataB : List Row) : List (SpecKeyCol × Score) :=
  sortRanked (fun p q => scoreLe q.2 p.2) (specCommonCols dataA dataB)

/-- Spec §4.3 step 4: the pipe-joined composite value of several columns,
per data row. -/
def specCompositeVals (data : List Row) (cols : List Nat) : List Value :=
  (data.drop 1).map (fun r =>
    Value.vstr (String.intercalate "|" (cols.map (fun j => jsStr (cellAt r j)))))

/-- Spec §4.3 step 4 combined uniqueness score of a composite key. -/
def specCombinedScore (dataA dataB : List Row) (cols : List SpecKeyCol) : Score :=
  scoreAvg (uniquenessScore (specCompositeVals dataA (cols.map (fun c => c.colA))))
    (uniquenessScore (specCompositeVals dataB (cols.map (fun c => c.colB))))

/-- Spec §4.3: select the top column alone when its averaged score exceeds
0.9; otherwise a top-2 or top-3 composite when its combined score exceeds
0.95; otherwise no key (positional fallback). -/
def specSelectKey (dataA dataB : List Row) : List SpecKeyCol :=
  match specRank dataA dataB with
  | [] => []
  | top :: rest =>
    if scoreGt top.2 (9, 10) then [top.1]
    else
      let ranked := top :: rest
      let top2 := (ranked.take 2).map Prod.fst
      let top3 := (ranked.take 3).map Prod.fst
      if 2 ≤ ranked.length && scoreGt (specCombinedScore dataA dataB top2) (19, 20) then top2
      else if 3 ≤ ranked.length && scoreGt (specCombinedScore dataA dataB top3) (19, 20) then top3
      else []

/-- Spec §4.4 per-row key under a selected key-column set, with the
`old-{i}` / `new-{i}` fallback when the key value is blank. -/
def specRowKey (pfx : String) (cols : List Nat) (row : Row) (idx : Nat) : String :=
  let s := String.intercalate "|" (cols.map (fun j => trimVal (cellAt row j)))
  if s = "" then pfx ++ toString idx else s

/-- Spec §4.4: the `key → list of (row, 1-based display index)` map of one
dataset, keys in first-occurrence order, occurrences in row order. -/
def groupByKey (pfx : String) (cols : List Nat) (rows : List Row) :
    List (String × List (Row × Nat)) :=
  (List.range rows.length).foldl (fun m i =>
    let row := rows.getD i []
    let k := specRowKey pfx cols row i
    match mapGet? m k with
    | some l => mapSet m k (l ++ [(row, i + 2)])
    | none => mapSet m k [(row, i + 2)]) []

/-- Spec §4.4 key-based matching, surplus part: for each key, occurrences
beyond the shorter list's length are classified added (B surplus) or
deleted (A surplus). -/
def specKeyedRowChanges (colsA colsB : List Nat) (oldData newData : List Row) :
    List DiffEngine.RowChange :=
  let gA := groupByKey "old-" colsA (oldData.drop 1)
  let gB := groupByKey "new-" colsB (newData.drop 1)
  (gB.flatMap fun p =>
    let occA := (mapGet? gA p.1).getD []
    (p.2.drop occA.length).map fun rc => ⟨p.1, "added", none, some rc.2, rc.1⟩)
  ++ (gA.flatMap fun p =>
    let occB := (mapGet? gB p.1).getD []
    (p.2.drop occB.length).map fun rc => ⟨p.1, "deleted", some rc.2, none, rc.1⟩)

/-- Spec §4.4 positional matching: rows beyond the shorter dataset's length
are added (only in B) or deleted (only in A). -/
def specPositionalRowChanges (oldData newData : List Row) :
    List DiffEngine.RowChange :=
  let oR := oldData.drop 1
  let nR := newData.drop 1
  ((List.range (nR.length - oR.length)).map fun i =>
    let idx := oR.length + i
    ⟨"new-" ++ toString idx, "added", none, some (idx + 2), nR.getD idx []⟩)
  ++ ((List.range (oR.length - nR.length)).map fun i =>
    let idx := nR.length + i
    ⟨"old-" ++ toString idx, "deleted", some (idx + 2), none, oR.getD idx []⟩)

/-- Spec §4.3/§4.4 combined: added/deleted rows under the selected key, or
positional matching when no key qualifies. -/
def specRowChanges (oldData newData : List Row) : List DiffEngine.RowChange :=
  match specSelectKey oldData newData with
  | [] => specPositionalRowChanges oldData newData
  | key => specKeyedRowChanges (key.map (fun c => c.colA))
      (key.map (fun c => c.colB)) oldData newData

/-- Spec §4.4: occurrence-paired unified rows under the engine's column-A
key: the i-th occurrence of a key in A pairs with the i-th occurrence in B,
surplus occurrences appear one-sided. -/
def specPairAllRows (oldData newData : List Row) : List DiffViewer.UnifiedRow :=
  let gA := groupByKey "old-" [0] (oldData.drop 1)
  let gB := groupByKey "new-" [0] (newData.drop 1)
  (gA.flatMap fun p =>
    let occB := (mapGet? gB p.1).getD []
    ((p.2.zip occB).map fun rc =>
      DiffViewer.UnifiedRow.mk p.1 (some rc.1.1) (some rc.1.2) (some rc.2.1) (some rc.2.2))
    ++ ((p.2.drop occB.length).map fun rc =>
      DiffViewer.UnifiedRow.mk p.1 (some rc.1) (some rc.2) none none)
    ++ ((occB.drop p.2.length).map fun rc =>
      DiffViewer.UnifiedRow.mk p.1 none none (some rc.1) (some rc.2)))
  ++ ((gB.filter (fun p => !(mapGet? gA p.1).isSome)).flatMap fun p =>
    p.2.map fun rc => DiffViewer.UnifiedRow.mk p.1 none none (some rc.1) (some rc.2))

end Spec

/-! ### Auxiliary definitions for the claim proofs -/

/-- Componentwise combination of two `results` states: counters add, sheet
lists concatenate. -/
def mergeResults (s t : DiffEngine.Results) : DiffEngine.Results :=
  ⟨⟨s.summary.totalSheets + t.summary.totalSheets,
    s.summary.modifiedSheets + t.summary.modifiedSheets,
    s.summary.addedSheets + t.summary.addedSheets,
    s.summary.deletedSheets + t.summary.deletedSheets⟩,
   s.sheets ++ t.sheets⟩

/-- The result of `compare` on a freshly constructed engine. -/
def compareFresh (wa wb : DiffEngine.Workbook) : DiffEngine.Results :=
  ((DiffEngine.compare DiffEngine.initialResults (some wa) (some wb)).toOption).getD
    DiffEngine.initialResults

/-! Concrete inputs used by counterexamples and witnesses. -/

/-- A one-sheet workbook with one header row and one data row. -/
def wbEx : DiffEngine.Workbook :=
  ⟨["S"], [("S", [[Value.vstr "H"], [Value.vstr "x"]])]⟩

/-- Header `[H1, H2]`, one data row `[a, b]`. -/
def exC1A : List Row := [[Value.vstr "H1", Value.vstr "H2"],
  [Value.vstr "a", Value.vstr "b"]]

/-- Duplicate header `X` in columns B and C, key column `K` first. -/
def exC1B : List Row := [[Value.vstr "K", Value.vstr "X", Value.vstr "X"],
  [Value.vstr "k", Value.vstr "1", Value.vstr "2"]]

/-- Key "x" with a `null` cell in column V. -/
def exC2A : List Row := [[Value.vstr "K", Value.vstr "V"],
  [Value.vstr "x", Value.vnull]]

/-- Key "x" with an empty-string cell in column V. -/
def exC2B : List Row := [[Value.vstr "K", Value.vstr "V"],
  [Value.vstr "x", Value.vstr ""]]

/-- Non-unique column G, fully unique column ID (values 1, 2, 3). -/
def exC3A : List Row := [[Value.vstr "G", Value.vstr "ID"],
  [Value.vstr "d", Value.vstr "1"], [Value.vstr "d", Value.vstr "2"],
  [Value.vstr "d", Value.vstr "3"]]

/-- Same as `exC3A` with the last ID changed to 4. -/
def exC3B : List Row := [[Value.vstr "G", Value.vstr "ID"],
  [Value.vstr "d", Value.vstr "1"], [Value.vstr "d", Value.vstr "2"],
  [Value.vstr "d", Value.vstr "4"]]

/-- Two data rows sharing key "x" (values 1 and 2). -/
def exC4A : List Row := [[Value.vstr "K", Value.vstr "V"],
  [Value.vstr "x", Value.vstr "1"], [Value.vstr "x", Value.vstr "2"]]

/-- Two data rows sharing key "x" (values 3 and 4). -/
def exC4B : List Row := [[Value.vstr "K", Value.vstr "V"],
  [Value.vstr "x", Value.vstr "3"], [Value.vstr "x", Value.vstr "4"]]

/-- A dataset with two rows and zero columns. -/
def exZeroCols : List Row := [[], []]

/-- Distinct headers `[K, X, Y]` and one data row with non-blank key. -/
def exC1W : List Row := [[Value.vstr "K", Value.vstr "X", Value.vstr "Y"],
  [Value.vstr "k1", Value.vstr "a", Value.vstr "b"]]

/-! ### Properties of the JS `Map` model -/

theorem optionMap_or (f : α → β) (x y : Option α) :
    (x.or y).map f = (x.map f).or (y.map f) := by
  cases x <;> rfl

theorem find?_singleton (p : α → Bool) (a : α) :
    List.find? p [a] = if p a then some a else none := by
  cases hp : p a <;> simp [List.find?, hp]

theorem mapGet?_mapSet (m : List (String × α)) (k k' : String) (v : α) :
    mapGet? (mapSet m k v) k' = if k' = k then some v else mapGet? m k' := by
  unfold mapSet mapGet?
  by_cases hany : (m.any fun p => p.1 == k) = true
  · simp only [hany, if_true]
    rw [List.find?_map]
    by_cases hk : k' = k
    · subst hk
      have hpred : ((fun p : String × α => p.1 == k') ∘
          fun p => if p.1 == k' then (k', v) else p) = fun p => p.1 == k' := by
        funext p
        by_cases h : p.1 = k' <;> simp [h]
      rw [hpred]
      have hsome : (m.find? fun p => p.1 == k').isSome = true := by
        rw [List.find?_isSome]
        obtain ⟨p, hp, hpk⟩ := List.any_eq_true.mp hany
        exact ⟨p, hp, hpk⟩
      obtain ⟨q, hq⟩ := Option.isSome_iff_exists.mp hsome
      rw [hq]
      have hqk := List.find?_some hq
      have hq1 : q.1 = k' := by simpa using hqk
      simp [hq1]
    · have hpred : ((fun p : String × α => p.1 == k') ∘
          fun p => if p.1 == k then (k, v) else p) = fun p => p.1 == k' := by
        funext p
        by_cases h : p.1 = k
        · simp [h, Ne.symm hk]
        · simp [h]
      rw [hpred, if_neg hk]
      cases hfind : m.find? fun p => p.1 == k' with
      | none => rfl
      | some q =>
        have hqk := List.find?_some hfind
        have hq1 : q.1 = k' := by simpa using hqk
        simp [hq1, hk]
  · have hany' : (m.any fun p => p.1 == k) = false := by
      rw [← Bool.not_eq_true]; exact hany
    simp only [hany', Bool.false_eq_true, if_false]
    rw [List.find?_append]
    by_cases hk : k' = k
    · subst hk
      have h1 : (m.find? fun p : String × α => p.1 == k') = none := by
        rw [List.find?_eq_none]
        intro p hp hpk
        exact (List.any_eq_false.mp hany' p hp) hpk
      have h2 : (List.find? (fun p : String × α => p.1 == k') [(k', v)]) =
          some (k', v) := by
        rw [find?_singleton]
        simp
      rw [h1, h2]
      simp
    · have h2 : (List.find? (fun p : String × α => p.1 == k') [(k, v)]) = none := by
        rw [find?_singleton]
        simp [Ne.symm hk]
      rw [h2, Option.or_none, if_neg hk]

/-- The keys of a map in the model are pairwise distinct. -/
def keysNodup (m : List (String × α)) : Prop := (m.map Prod.fst).Nodup

theorem keysNodup_mapSet (m : List (String × α)) (k : String) (v : α)
    (h : keysNodup m) : keysNodup (mapSet m k v) := by
  unfold mapSet
  by_cases hany : (m.any fun p => p.1 == k) = true
  · simp only [hany, if_true]
    have hkeys : ((m.map fun p => if p.1 == k then (k, v) else p).map Prod.fst) =
        m.map Prod.fst := by
      rw [List.map_map]
      apply List.map_congr_left
      intro p _
      by_cases hp : p.1 = k <;> simp [hp]
    unfold keysNodup
    rw [hkeys]
    exact h
  · have hany' : (m.any fun p => p.1 == k) = false := by
      rw [← Bool.not_eq_true]; exact hany
    simp only [hany', Bool.false_eq_true, if_false]
    unfold keysNodup at h ⊢
    rw [List.map_append, List.nodup_append]
    refine ⟨h, List.nodup_singleton k, ?_⟩
    intro x hx hxk
    have hxk' : x = k := List.mem_singleton.mp hxk
    subst hxk'
    obtain ⟨p, hp, hp1⟩ := List.mem_map.mp hx
    exact (List.any_eq_false.mp hany' p hp) (by simp [hp1])

theorem keysNodup_buildMapFrom (init ps : List (String × α))
    (h : keysNodup init) : keysNodup (buildMapFrom init ps) := by
  induction ps generalizing init with
  | nil => exact h
  | cons p ps ih => exact ih _ (keysNodup_mapSet _ _ _ h)

theorem keysNodup_buildMap (ps : List (String × α)) : keysNodup (buildMap ps) :=
  keysNodup_buildMapFrom [] ps (by simp [keysNodup])

theorem mapGet?_eq_some_of_mem (m : List (String × α)) (k : String) (v : α)
    (hnd : keysNodup m) (hmem : (k, v) ∈ m) : mapGet? m k = some v := by
  induction m with
  | nil => cases hmem
  | cons p m ih =>
    unfold mapGet?
    rcases List.mem_cons.mp hmem with heq | hmem'
    · rw [← heq]
      simp [List.find?_cons]
    · by_cases hp : p.1 = k
      · exfalso
        unfold keysNodup at hnd
        rw [List.map_cons, List.nodup_cons] at hnd
        exact hnd.1 (hp ▸ List.mem_map.mpr ⟨(k, v), hmem', rfl⟩)
      · have hnd' : keysNodup m := by
          unfold keysNodup at hnd ⊢
          rw [List.map_cons, List.nodup_cons] at hnd
          exact hnd.2
        have hrec := ih hnd' hmem'
        unfold mapGet? at hrec
        rw [List.find?_cons]
        have : (p.1 == k) = false := by simp [hp]
        rw [this]
        exact hrec

theorem mem_of_mapGet?_eq_some (m : List (String × α)) (k : String) (v : α)
    (h : mapGet? m k = some v) : (k, v) ∈ m := by
  unfold mapGet? at h
  cases hfind : m.find? (fun p => p.1 == k) with
  | none => rw [hfind] at h; cases h
  | some q =>
    rw [hfind] at h
    have hq1 : q.1 = k := by simpa using List.find?_some hfind
    have hq2 : q.2 = v := by simpa using h
    have hq : q = (k, v) := by cases q; simp_all
    exact hq ▸ List.mem_of_find?_eq_some hfind

theorem mem_mapSet (m : List (String × α)) (k : String) (v : α) (q : String × α)
    (h : q ∈ mapSet m k v) : q ∈ m ∨ q = (k, v) := by
  unfold mapSet at h
  by_cases hany : (m.any fun p => p.1 == k) = true
  · simp only [hany, if_true] at h
    obtain ⟨p, hp, hpq⟩ := List.mem_map.mp h
    by_cases hpk : p.1 = k
    · right; rw [← hpq]; simp [hpk]
    · left; rw [← hpq]; simpa [hpk] using hp
  · have hany' : (m.any fun p => p.1 == k) = false := by
      rw [← Bool.not_eq_true]; exact hany
    simp only [hany', Bool.false_eq_true, if_false] at h
    rcases List.mem_append.mp h with h' | h'
    · exact Or.inl h'
    · exact Or.inr (List.mem_singleton.mp h')

theorem mem_buildMapFrom (init ps : List (String × α)) (q : String × α)
    (h : q ∈ buildMapFrom init ps) : q ∈ init ∨ q ∈ ps := by
  induction ps generalizing init with
  | nil => exact Or.inl h
  | cons p ps ih =>
    rcases ih (mapSet init p.1 p.2) h with h' | h'
    · rcases mem_mapSet _ _ _ _ h' with h'' | h''
      · exact Or.inl h''
      · exact Or.inr (by simp [h''])
    · exact Or.inr (List.mem_cons_of_mem _ h')

theorem mem_buildMap (ps : List (String × α)) (q : String × α)
    (h : q ∈ buildMap ps) : q ∈ ps := by
  rcases mem_buildMapFrom [] ps q h with h' | h'
  · cases h'
  · exact h'

theorem mapGet?_buildMapFrom (init ps : List (String × α)) (k : String) :
    mapGet? (buildMapFrom init ps) k = (revLookup ps k).or (mapGet? init k) := by
  induction ps generalizing init with
  | nil =>
    simp [buildMapFrom, revLookup]
  | cons p ps ih =>
    have step : buildMapFrom init (p :: ps) = buildMapFrom (mapSet init p.1 p.2) ps := rfl
    rw [step, ih]
    have hrev : revLookup (p :: ps) k =
        (revLookup ps k).or (if p.1 == k then some p.2 else none) := by
      unfold revLookup
      rw [List.reverse_cons, List.find?_append, optionMap_or]
      congr 1
      rw [find?_singleton]
      by_cases hp : p.1 = k <;> simp [hp]
    rw [hrev, Option.or_assoc]
    congr 1
    rw [mapGet?_mapSet]
    by_cases hk : k = p.1
    · simp [hk]
    · have hbe : (p.1 == k) = false := by simp [Ne.symm hk]
      simp [hk, hbe]

theorem mapGet?_buildMap (ps : List (String × α)) (k : String) :
    mapGet? (buildMap ps) k = revLookup ps k := by
  rw [buildMap, mapGet?_buildMapFrom]
  simp [mapGet?]

theorem revLookup_map_pairs (g : String × α → β) (ps : List (String × α))
    (k : String) :
    revLookup (ps.map (fun p => (p.1, g p))) k =
      (ps.reverse.find? (fun p => p.1 == k)).map g := by
  unfold revLookup
  rw [← List.map_reverse, List.find?_map, Option.map_map]
  rfl

theorem revLookup_map_snd (g : α → β) (ps : List (String × α)) (k : String) :
    revLookup (ps.map (fun p => (p.1, g p.2))) k = (revLookup ps k).map g := by
  rw [revLookup_map_pairs]
  unfold revLookup
  rw [Option.map_map]
  rfl

theorem revLookup_eq_some_mem (ps : List (String × α)) (k : String) (v : α)
    (h : revLookup ps k = some v) : (k, v) ∈ ps := by
  unfold revLookup at h
  cases hfind : ps.reverse.find? (fun p => p.1 == k) with
  | none => rw [hfind] at h; cases h
  | some q =>
    rw [hfind] at h
    have hq1 : q.1 = k := by simpa using List.find?_some hfind
    have hq2 : q.2 = v := by simpa using h
    have hq : q = (k, v) := by cases q; simp_all
    exact List.mem_reverse.mp (hq ▸ List.mem_of_find?_eq_some hfind)

theorem revLookup_isSome_of_mem (ps : List (String × α)) (q : String × α)
    (h : q ∈ ps) : (revLookup ps q.1).isSome := by
  unfold revLookup
  have hsome : (ps.reverse.find? fun p => p.1 == q.1).isSome = true := by
    rw [List.find?_isSome]
    exact ⟨q, List.mem_reverse.mpr h, by simp⟩
  obtain ⟨r, hr⟩ := Option.isSome_iff_exists.mp hsome
  rw [hr]
  rfl

/-! ### Value equality (claims C5, C10) -/

theorem isBlank_iff (a : Value) :
    Spec.isBlankSpec a = true ↔ (a = .vnull ∨ a = .vundefined ∨ a = .vstr "") := by
  simp [Spec.isBlankSpec, or_assoc]

theorem areValuesEqual_eq_spec (a b : Value) :
    ExcelParser.areValuesEqual a b = Spec.specEquals a b := by
  unfold ExcelParser.areValuesEqual Spec.specEquals
  by_cases ha : a = .vnull ∨ a = .vundefined ∨ a = .vstr ""
  · have ha' : Spec.isBlankSpec a = true := (isBlank_iff a).mpr ha
    by_cases hb : b = .vnull ∨ b = .vundefined ∨ b = .vstr ""
    · have hb' : Spec.isBlankSpec b = true := (isBlank_iff b).mpr hb
      simp [ha, hb, ha', hb']
    · have hb' : Spec.isBlankSpec b = false := by
        rw [← Bool.not_eq_true]
        intro hx
        exact hb ((isBlank_iff b).mp hx)
      simp [ha, hb, ha', hb']
  · have ha' : Spec.isBlankSpec a = false := by
      rw [← Bool.not_eq_true]
      intro hx
      exact ha ((isBlank_iff a).mp hx)
    by_cases hb : b = .vnull ∨ b = .vundefined ∨ b = .vstr ""
    · have hb' : Spec.isBlankSpec b = true := (isBlank_iff b).mpr hb
      simp [ha, hb, ha', hb']
    · have hb' : Spec.isBlankSpec b = false := by
        rw [← Bool.not_eq_true]
        intro hx
        exact hb ((isBlank_iff b).mp hx)
      simp [ha, hb, ha', hb']

/-- C5: `areValuesEqual` returns true exactly under the spec's rule — blanks
(`null`/`undefined`/`''`) are mutually equivalent, a blank never equals a
non-blank, and otherwise the trimmed string representations are compared;
in particular the number 5 equals the string "5". -/
theorem c5_value_equality_rule :
    (∀ a b : Value, ExcelParser.areValuesEqual a b = Spec.specEquals a b) ∧
    ExcelParser.areValuesEqual (.vint 5) (.vstr "5") = true ∧
    (∀ a b : Value, Spec.isBlankSpec a = true → Spec.isBlankSpec b = false →
      ExcelParser.areValuesEqual a b = false) := by
  refine ⟨areValuesEqual_eq_spec, by decide, ?_⟩
  intro a b ha hb
  rw [areValuesEqual_eq_spec]
  unfold Spec.specEquals
  simp [ha, hb]

/-- Witness for C5: evaluated at `null` (blank) versus `"x"` (non-blank). -/
theorem c5_value_equality_rule_witness :
    ExcelParser.areValuesEqual .vnull (.vstr "x") = false :=
  c5_value_equality_rule.2.2 .vnull (.vstr "x") (by decide) (by decide)

/-- C10: value equality is symmetric in its two arguments. -/
theorem c10_value_equality_symm (a b : Value) :
    ExcelParser.areValuesEqual a b = ExcelParser.areValuesEqual b a := by
  rw [areValuesEqual_eq_spec, areValuesEqual_eq_spec]
  unfold Spec.specEquals
  by_cases ha : Spec.isBlankSpec a <;> by_cases hb : Spec.isBlankSpec b <;>
    simp [ha, hb]
  by_cases h : jsTrim (jsStr a) = jsTrim (jsStr b)
  · simp [h]
  · simp [h, Ne.symm h]

/-! ### Empty input (claim C6) -/

/-- C6 (amended): comparing two empty datasets yields an empty result (no
differences, no row/column changes, no unified rows, no unified columns) and
no error; whenever either dataset has zero rows, the three change lists are
empty.  (Zero-column datasets with data rows are not special-cased, see the
counterexample.) -/
theorem c6_empty_input :
    (DiffEngine.compareSheets ([] : List Row) [] =
        { oldData := [], newData := [] } ∧
     DiffViewer.getAllRows ([] : List Row) [] = [] ∧
     DiffViewer.getUnifiedColumns ([] : List Row) [] = []) ∧
    (∀ oldData newData : List Row, oldData.length = 0 ∨ newData.length = 0 →
      (DiffEngine.compareSheets oldData newData).differences = [] ∧
      (DiffEngine.compareSheets oldData newData).rowChanges = [] ∧
      (DiffEngine.compareSheets oldData newData).columnChanges = []) := by
  constructor
  · exact ⟨rfl, rfl, rfl⟩
  · intro o n h
    have hc : (o.length = 0 || n.length = 0) = true := by
      rcases h with h | h <;> simp [h]
    unfold DiffEngine.compareSheets
    rw [if_pos hc]
    exact ⟨rfl, rfl, rfl⟩

/-- Witness for C6: a one-sided empty input evaluated concretely. -/
theorem c6_empty_input_witness :
    (DiffEngine.compareSheets [[Value.vstr "H"]] ([] : List Row)).rowChanges = [] :=
  (c6_empty_input.2 [[Value.vstr "H"]] [] (Or.inr rfl)).2.1

/-- Counterexample for C6 as stated: a zero-column dataset with two rows is
not returned as an empty result — the engine produces fallback-key row
changes; and with one side empty the unified row list follows the nonempty
side instead of being empty. -/
theorem c6_counterexample :
    (exZeroCols.all (fun r => r.length = 0) = true) ∧
    (DiffEngine.compareSheets exZeroCols exZeroCols).rowChanges ≠ [] ∧
    DiffViewer.getAllRows ([] : List Row)
      [[Value.vstr "H"], [Value.vstr "x"]] ≠ [] := by
  refine ⟨rfl, ?_, ?_⟩ <;> decide

/-! ### Null input handling (claim C7) -/

/-- C7 (amended): a `null` dataset is not a rejected precondition — the
engine returns its current `results` object unchanged and raises nothing;
no input makes `compare` raise. -/
theorem c7_null_input :
    (∀ (s : DiffEngine.Results) (b : Option DiffEngine.Workbook),
      DiffEngine.compare s none b = Except.ok s) ∧
    (∀ (s : DiffEngine.Results) (a : Option DiffEngine.Workbook),
      DiffEngine.compare s a none = Except.ok s) ∧
    (∀ (s : DiffEngine.Results) (a b : Option DiffEngine.Workbook),
      ∃ r, DiffEngine.compare s a b = Except.ok r) := by
  refine ⟨?_, ?_, ?_⟩
  · intro s b; cases b <;> rfl
  · intro s a; cases a <;> rfl
  · intro s a b
    cases a <;> cases b <;> exact ⟨_, rfl⟩

/-- Counterexample for C7 as stated: on a `null` first dataset the engine
returns `ok` with the untouched initial results — no hard error is
surfaced. -/
theorem c7_counterexample :
    DiffEngine.compare DiffEngine.initialResults none (some wbEx) =
      Except.ok DiffEngine.initialResults := rfl
/-! ### Counterexamples observed on concrete inputs (claims C1–C4, C9) -/

/-- Counterexample for C1 as stated: swapping the two columns of `exC1A`
(a permutation of its columns) makes the engine report the data row as both
added and deleted (row matching keys on physical column A); and for a
permutation fixing column A but swapping two columns with duplicate header
text, a spurious cell difference is reported.  So not every column
permutation yields an all-matched diff. -/
theorem c1_counterexample :
    ([1, 0].Perm (List.range 2)) ∧
    DiffEngine.detectRowChanges exC1A (Spec.permuteData [1, 0] exC1A) ≠ [] ∧
    ([0, 2, 1].Perm (List.range 3)) ∧
    DiffEngine.compareCells exC1B (Spec.permuteData [0, 2, 1] exC1B) ≠ [] := by
  refine ⟨by decide, by decide, by decide, by decide⟩

/-- Counterexample for C2 as stated: comparing a `null` cell against an
empty-string cell (blank-equivalent under Value Equality) still emits a cell
difference, because the code compares with strict `!==`, not with
`areValuesEqual`. -/
theorem c2_counterexample :
    DiffEngine.compareCells exC2A exC2B =
      [⟨2, "V", "B", "B", Value.vnull, Value.vstr ""⟩] ∧
    (DiffEngine.compareCells exC2A exC2B).all
      (fun d => ExcelParser.areValuesEqual d.oldValue d.newValue) = true := by
  refine ⟨by decide, by decide⟩

/-- Counterexample for C3 as stated: on `exC3A`/`exC3B` the spec's selector
ranks column ID top with averaged uniqueness score 1 > 0.9 and would report
one added and one deleted row, but the engine (which always keys on column
A) reports no row change at all. -/
theorem c3_counterexample :
    Spec.specSelectKey exC3A exC3B ≠ [] ∧
    Spec.specRowChanges exC3A exC3B ≠ [] ∧
    DiffEngine.detectRowChanges exC3A exC3B = [] := by
  refine ⟨by decide, by decide, by decide⟩

/-- Counterexample for C4 as stated: with the key "x" occurring twice in
each dataset, occurrence pairing would produce two unified rows, but the
engine's maps overwrite duplicates and produce a single unified row pairing
the two last occurrences; the surplus first occurrences vanish instead of
being classified. -/
theorem c4_counterexample :
    (DiffViewer.getAllRows exC4A exC4B).length = 1 ∧
    (Spec.specPairAllRows exC4A exC4B).length = 2 ∧
    DiffViewer.getAllRows exC4A exC4B ≠ Spec.specPairAllRows exC4A exC4B := by
  refine ⟨by decide, by decide, by decide⟩

/-- Counterexample for C9 as stated: calling `compare` twice on the same
engine with the same inputs does not return equal results — the second call
returns a results object with two sheet entries instead of one. -/
theorem c9_counterexample :
    (DiffEngine.compare (compareFresh wbEx wbEx) (some wbEx) (some wbEx)).toOption.map
      (fun r => r.sheets.length) = some 2 ∧
    (compareFresh wbEx wbEx).sheets.length = 1 := by
  refine ⟨by decide, by decide⟩
/-! ### One-null invariant (claim C8) -/

theorem foldl_preserve {β γ : Type u} {P : β → Prop} (step : β → γ → β)
    (l : List γ) (b : β) (hb : P b)
    (hstep : ∀ b x, P b → P (step b x)) : P (l.foldl step b) := by
  induction l generalizing b with
  | nil => exact hb
  | cons x l ih => exact ih _ (hstep b x hb)

theorem forall_mem_mapSet {P : String × α → Prop} (m : List (String × α))
    (k : String) (v : α) (h : ∀ q ∈ m, P q) (hkv : P (k, v)) :
    ∀ q ∈ mapSet m k v, P q := by
  intro q hq
  rcases mem_mapSet _ _ _ _ hq with h' | h'
  · exact h q h'
  · exact h' ▸ hkv

theorem forall_mem_mapDelete {P : String × α → Prop} (m : List (String × α))
    (k : String) (h : ∀ q ∈ m, P q) : ∀ q ∈ mapDelete m k, P q := by
  intro q hq
  exact h q (List.mem_filter.mp hq).1

/-- Every entry of the viewer's header map has a non-null side. -/
theorem headerMap_one_null (oldHeaders newHeaders : Row) :
    ∀ q ∈ DiffViewer.headerMap oldHeaders newHeaders,
      q.2.1.isSome ∨ q.2.2.isSome := by
  unfold DiffViewer.headerMap
  apply foldl_preserve
    (P := fun m : List (String × (Option String × Option String)) =>
      ∀ q ∈ m, q.2.1.isSome ∨ q.2.2.isSome)
  · apply foldl_preserve
      (P := fun m : List (String × (Option String × Option String)) =>
        ∀ q ∈ m, q.2.1.isSome ∨ q.2.2.isSome)
    · intro q hq
      cases hq
    · intro m j hm
      unfold DiffViewer.oldHeaderStep
      by_cases hc : trimVal (cellAt oldHeaders j) = ""
      · rw [if_neg (not_not_intro hc)]
        refine forall_mem_mapSet _ _ _ hm ?_
        exact Or.inl rfl
      · rw [if_pos hc]
        refine forall_mem_mapSet _ _ _ hm ?_
        exact Or.inl rfl
  · intro m j hm
    unfold DiffViewer.newHeaderStep
    by_cases hc : trimVal (cellAt newHeaders j) = ""
    · rw [if_neg (not_not_intro hc)]
      cases hget : mapGet? m ("__empty_old_" ++ colName j) with
      | some p =>
        simp only [hget]
        refine forall_mem_mapSet _ _ _ (forall_mem_mapDelete _ _ hm) ?_
        exact Or.inr rfl
      | none =>
        simp only [hget]
        refine forall_mem_mapSet _ _ _ hm ?_
        exact Or.inr rfl
    · rw [if_pos hc]
      cases hget : mapGet? m (trimVal (cellAt newHeaders j)) with
      | some p =>
        simp only [hget]
        refine forall_mem_mapSet _ _ _ hm ?_
        exact Or.inr rfl
      | none =>
        simp only [hget]
        refine forall_mem_mapSet _ _ _ hm ?_
        exact Or.inr rfl

/-- The output loop of `getUnifiedColumns` only emits entries with a
non-null side, given that the header map satisfies the invariant. -/
theorem unifiedCols_fold_one_null
    (hm : List (String × (Option String × Option String)))
    (hhm : ∀ q ∈ hm, q.2.1.isSome ∨ q.2.2.isSome) (l : List Nat) :
    ∀ x ∈ (l.foldl (DiffViewer.unifiedColStep hm) ([], [])).1,
      x.oldCol.isSome ∨ x.newCol.isSome := by
  apply foldl_preserve
    (P := fun acc : List DiffViewer.UnifiedCol × List String =>
      ∀ x ∈ acc.1, x.oldCol.isSome ∨ x.newCol.isSome)
  · intro x hx
    cases hx
  · intro acc j hacc
    unfold DiffViewer.unifiedColStep
    cases hfind : hm.find? (fun p =>
        p.2.2 == some (colName j) && !(acc.2.contains p.1)) with
    | some p =>
      simp only [hfind]
      intro x hx
      rcases List.mem_append.mp hx with h | h
      · exact hacc x h
      · rw [List.mem_singleton.mp h]
        exact hhm p (List.mem_of_find?_eq_some hfind)
    | none =>
      simp only [hfind]
      exact hacc

/-- Every map entry built by `getAllRows` has a full A side or a full B
side. -/
theorem getAllRows_map_one_null (oldRows newRows : List Row)
    (l1 l2 : List Nat) :
    ∀ q ∈ l2.foldl (DiffViewer.newRowStep newRows)
        (l1.foldl (DiffViewer.oldRowStep oldRows) []),
      (q.2.oldRow.isSome ∧ q.2.oldIndex.isSome) ∨
        (q.2.newRow.isSome ∧ q.2.newIndex.isSome) := by
  apply foldl_preserve
    (P := fun m : List (String × DiffViewer.UnifiedRow) =>
      ∀ q ∈ m, (q.2.oldRow.isSome ∧ q.2.oldIndex.isSome) ∨
        (q.2.newRow.isSome ∧ q.2.newIndex.isSome))
  · apply foldl_preserve
      (P := fun m : List (String × DiffViewer.UnifiedRow) =>
        ∀ q ∈ m, (q.2.oldRow.isSome ∧ q.2.oldIndex.isSome) ∨
          (q.2.newRow.isSome ∧ q.2.newIndex.isSome))
    · intro q hq
      cases hq
    · intro m i hm
      unfold DiffViewer.oldRowStep
      refine forall_mem_mapSet _ _ _ hm ?_
      exact Or.inl ⟨rfl, rfl⟩
  · intro m i hm
    unfold DiffViewer.newRowStep
    cases hget : mapGet? m (DiffEngine.rowKeyOf "new-" (newRows.getD i []) i) with
    | some u =>
      simp only [hget]
      refine forall_mem_mapSet _ _ _ hm ?_
      exact Or.inr ⟨rfl, rfl⟩
    | none =>
      simp only [hget]
      refine forall_mem_mapSet _ _ _ hm ?_
      exact Or.inr ⟨rfl, rfl⟩

/-- C8: every unified column and every unified row produced by the viewer
has at least one non-null side — the column carries an A-side or B-side
column letter, the row carries an A-side or B-side row (with its index);
never both sides null. -/
theorem c8_one_null_invariant (oldData newData : List Row) :
    (∀ c ∈ DiffViewer.getUnifiedColumns oldData newData,
      c.oldCol.isSome ∨ c.newCol.isSome) ∧
    (∀ u ∈ DiffViewer.getAllRows oldData newData,
      (u.oldRow.isSome ∧ u.oldIndex.isSome) ∨
        (u.newRow.isSome ∧ u.newIndex.isSome)) := by
  constructor
  · intro c hc
    have hhm := headerMap_one_null (oldData.getD 0 []) (newData.getD 0 [])
    rcases List.mem_append.mp hc with hc1 | hc1
    · exact unifiedCols_fold_one_null _ hhm _ c hc1
    · obtain ⟨p, hp, hpc⟩ := List.mem_map.mp hc1
      have hq := hhm p (List.mem_filter.mp hp).1
      rw [← hpc]
      exact hq
  · intro u hu
    obtain ⟨q, hq, hqu⟩ := List.mem_map.mp hu
    rw [← hqu]
    exact getAllRows_map_one_null (oldData.drop 1) (newData.drop 1) _ _ q hq

/-- Witness for C8: the invariant evaluated on a concrete unified column and
row of `exC1A` compared with itself. -/
theorem c8_one_null_invariant_witness :
    ((⟨"H1", some "A", some "A", "normal"⟩ : DiffViewer.UnifiedCol).oldCol.isSome ∨
      (⟨"H1", some "A", some "A", "normal"⟩ : DiffViewer.UnifiedCol).newCol.isSome) :=
  (c8_one_null_invariant exC1A exC1A).1 ⟨"H1", some "A", some "A", "normal"⟩ (by decide)
/-! ### Row keying and row changes (claim C3) -/

theorem mapHas_of_mem (m : List (String × α)) (p : String × α) (hp : p ∈ m) :
    mapHas m p.1 = true := by
  unfold mapHas mapGet?
  have hsome : (m.find? fun q => q.1 == p.1).isSome = true := by
    rw [List.find?_isSome]
    exact ⟨p, hp, by simp⟩
  obtain ⟨q, hq⟩ := Option.isSome_iff_exists.mp hsome
  rw [hq]
  rfl

/-- C3 (amended): the engine performs no uniqueness-based key selection.
Row identity is always the key built from physical column A (with the
`old-{i}`/`new-{i}` fallback); a row change of type "added" is reported for
`k` exactly when `k` is a column-A key of B's data rows and not of A's, and
symmetrically for "deleted". -/
theorem c3_row_key_selection (oldData newData : List Row) (k : String) :
    ((∃ c ∈ DiffEngine.detectRowChanges oldData newData,
        c.type = "added" ∧ c.rowKey = k) ↔
      (mapHas (DiffEngine.buildRowMap "new-" (newData.drop 1)) k = true ∧
       mapHas (DiffEngine.buildRowMap "old-" (oldData.drop 1)) k = false)) ∧
    ((∃ c ∈ DiffEngine.detectRowChanges oldData newData,
        c.type = "deleted" ∧ c.rowKey = k) ↔
      (mapHas (DiffEngine.buildRowMap "old-" (oldData.drop 1)) k = true ∧
       mapHas (DiffEngine.buildRowMap "new-" (newData.drop 1)) k = false)) := by
  unfold DiffEngine.detectRowChanges
  constructor
  · constructor
    · rintro ⟨c, hc, htype, hkey⟩
      rcases List.mem_append.mp hc with h | h
      · obtain ⟨p, hp, hpc⟩ := List.mem_filterMap.mp h
        by_cases hhas : mapHas (DiffEngine.buildRowMap "old-" (oldData.drop 1)) p.1 = true
        · rw [if_pos hhas] at hpc
          cases hpc
        · have hhas' : mapHas (DiffEngine.buildRowMap "old-" (oldData.drop 1)) p.1 = false := by
            rw [← Bool.not_eq_true]; exact hhas
          rw [if_neg hhas] at hpc
          injection hpc with hxc
          subst hxc
          subst hkey
          exact ⟨mapHas_of_mem _ p hp, hhas'⟩
      · obtain ⟨p, hp, hpc⟩ := List.mem_filterMap.mp h
        exfalso
        by_cases hhas : mapHas (DiffEngine.buildRowMap "new-" (newData.drop 1)) p.1 = true
        · rw [if_pos hhas] at hpc
          cases hpc
        · rw [if_neg hhas] at hpc
          injection hpc with hxc
          subst hxc
          simp at htype
    · rintro ⟨hnew, hold⟩
      obtain ⟨e, he⟩ : ∃ e,
          mapGet? (DiffEngine.buildRowMap "new-" (newData.drop 1)) k = some e :=
        Option.isSome_iff_exists.mp hnew
      have hmem := mem_of_mapGet?_eq_some _ _ _ he
      refine ⟨⟨k, "added", none, some e.index, e.row⟩, ?_, rfl, rfl⟩
      apply List.mem_append.mpr
      left
      apply List.mem_filterMap.mpr
      refine ⟨(k, e), hmem, ?_⟩
      rw [if_neg (show ¬mapHas (DiffEngine.buildRowMap "old-" (oldData.drop 1))
          (k, e).1 = true by
        intro h
        have h2 : mapHas (DiffEngine.buildRowMap "old-" (oldData.drop 1)) k = true := h
        rw [hold] at h2
        cases h2)]
  · constructor
    · rintro ⟨c, hc, htype, hkey⟩
      rcases List.mem_append.mp hc with h | h
      · obtain ⟨p, hp, hpc⟩ := List.mem_filterMap.mp h
        exfalso
        by_cases hhas : mapHas (DiffEngine.buildRowMap "old-" (oldData.drop 1)) p.1 = true
        · rw [if_pos hhas] at hpc
          cases hpc
        · rw [if_neg hhas] at hpc
          injection hpc with hxc
          subst hxc
          simp at htype
      · obtain ⟨p, hp, hpc⟩ := List.mem_filterMap.mp h
        by_cases hhas : mapHas (DiffEngine.buildRowMap "new-" (newData.drop 1)) p.1 = true
        · rw [if_pos hhas] at hpc
          cases hpc
        · have hhas' : mapHas (DiffEngine.buildRowMap "new-" (newData.drop 1)) p.1 = false := by
            rw [← Bool.not_eq_true]; exact hhas
          rw [if_neg hhas] at hpc
          injection hpc with hxc
          subst hxc
          subst hkey
          exact ⟨mapHas_of_mem _ p hp, hhas'⟩
    · rintro ⟨hold, hnew⟩
      obtain ⟨e, he⟩ : ∃ e,
          mapGet? (DiffEngine.buildRowMap "old-" (oldData.drop 1)) k = some e :=
        Option.isSome_iff_exists.mp hold
      have hmem := mem_of_mapGet?_eq_some _ _ _ he
      refine ⟨⟨k, "deleted", some e.index, none, e.row⟩, ?_, rfl, rfl⟩
      apply List.mem_append.mpr
      right
      apply List.mem_filterMap.mpr
      refine ⟨(k, e), hmem, ?_⟩
      rw [if_neg (show ¬mapHas (DiffEngine.buildRowMap "new-" (newData.drop 1))
          (k, e).1 = true by
        intro h
        have h2 : mapHas (DiffEngine.buildRowMap "new-" (newData.drop 1)) k = true := h
        rw [hnew] at h2
        cases h2)]

/-- Witness for C3: the characterization applied at a concrete added key. -/
theorem c3_row_key_selection_witness :
    ∃ c ∈ DiffEngine.detectRowChanges exC4A
        [[Value.vstr "K", Value.vstr "V"], [Value.vstr "y", Value.vstr "9"]],
      c.type = "added" ∧ c.rowKey = "y" :=
  (c3_row_key_selection exC4A
    [[Value.vstr "K", Value.vstr "V"], [Value.vstr "y", Value.vstr "9"]] "y").1.mpr
    ⟨by decide, by decide⟩

/-! ### Cell differ characterization (claim C2) -/

/-- C2 (amended): for matched rows and matched headers, a cell difference is
emitted exactly when the two raw values are not strictly identical (JS
`!==` — not the blank-tolerant Value Equality), and the entry carries the
header content together with both raw values. -/
theorem c2_cell_differ (oldData newData : List Row) (d : DiffEngine.CellDiff) :
    d ∈ DiffEngine.compareCells oldData newData ↔
    ∃ k oe ne jo jn,
      mapGet? (DiffEngine.buildRowMap "old-" (oldData.drop 1)) k = some oe ∧
      mapGet? (DiffEngine.buildRowMap "new-" (newData.drop 1)) k = some ne ∧
      mapGet? (DiffEngine.headerMapOf (oldData.getD 0 [])) d.header = some jo ∧
      mapGet? (DiffEngine.headerMapOf (newData.getD 0 [])) d.header = some jn ∧
      jsStrictEq (cellAt oe.row jo) (cellAt ne.row jn) = false ∧
      d = ⟨oe.index, d.header, colName jo, colName jn,
        cellAt oe.row jo, cellAt ne.row jn⟩ := by
  unfold DiffEngine.compareCells
  constructor
  · intro hd
    obtain ⟨p, hp, hpd⟩ := List.mem_flatMap.mp hd
    cases hne : mapGet? (DiffEngine.buildRowMap "new-" (newData.drop 1)) p.1 with
    | none =>
      rw [hne] at hpd
      cases hpd
    | some ne =>
      rw [hne] at hpd
      dsimp only at hpd
      obtain ⟨q, hq, hqd⟩ := List.mem_flatMap.mp hpd
      cases hjn : mapGet? (DiffEngine.headerMapOf (newData.getD 0 [])) q.1 with
      | none =>
        rw [hjn] at hqd
        cases hqd
      | some jn =>
        rw [hjn] at hqd
        dsimp only at hqd
        by_cases hstr : jsStrictEq (cellAt p.2.row q.2) (cellAt ne.row jn) = true
        · rw [if_pos hstr] at hqd
          cases hqd
        · have hstr' : jsStrictEq (cellAt p.2.row q.2) (cellAt ne.row jn) = false := by
            rw [← Bool.not_eq_true]; exact hstr
          rw [if_neg hstr] at hqd
          have hd' := List.mem_singleton.mp hqd
          have hdh : d.header = q.1 := by rw [hd']
          refine ⟨p.1, p.2, ne, q.2, jn, ?_, ?_, ?_, ?_, ?_, ?_⟩
          · exact mapGet?_eq_some_of_mem _ _ _ (keysNodup_buildMap _) hp
          · exact hne
          · rw [hdh]
            exact mapGet?_eq_some_of_mem _ _ _ (keysNodup_buildMap _) hq
          · rw [hdh]
            exact hjn
          · exact hstr'
          · rw [hdh]
            exact hd'
  · rintro ⟨k, oe, ne, jo, jn, hoe, hne, hjo, hjn, hstr, hd⟩
    apply List.mem_flatMap.mpr
    refine ⟨(k, oe), mem_of_mapGet?_eq_some _ _ _ hoe, ?_⟩
    rw [hne]
    dsimp only
    apply List.mem_flatMap.mpr
    refine ⟨(d.header, jo), mem_of_mapGet?_eq_some _ _ _ hjo, ?_⟩
    rw [hjn]
    dsimp only
    rw [if_neg (show ¬jsStrictEq (cellAt oe.row jo) (cellAt ne.row jn) = true by
      rw [hstr]
      exact Bool.false_ne_true)]
    rw [List.mem_singleton]
    exact hd

/-- Witness for C2: the characterization applied to the concrete emitted
difference of `exC2A` versus `exC2B`. -/
theorem c2_cell_differ_witness :
    (⟨2, "V", "B", "B", Value.vnull, Value.vstr ""⟩ : DiffEngine.CellDiff) ∈
      DiffEngine.compareCells exC2A exC2B :=
  (c2_cell_differ exC2A exC2B ⟨2, "V", "B", "B", Value.vnull, Value.vstr ""⟩).mpr
    ⟨"x", ⟨[Value.vstr "x", Value.vnull], 2⟩,
     ⟨[Value.vstr "x", Value.vstr ""], 2⟩, 1, 1,
     by decide, by decide, by decide, by decide, by decide, by decide⟩

/-! ### Engine state accumulation (claim C9) -/

theorem mergeResults_assoc (a b c : DiffEngine.Results) :
    mergeResults (mergeResults a b) c = mergeResults a (mergeResults b c) := by
  unfold mergeResults
  simp [Nat.add_assoc]

theorem mergeResults_init (s : DiffEngine.Results) :
    mergeResults s DiffEngine.initialResults = s := by
  obtain ⟨⟨t, m, ad, de⟩, sh⟩ := s
  unfold mergeResults DiffEngine.initialResults
  simp

theorem compareStep_split (a b : DiffEngine.Workbook) (res : DiffEngine.Results)
    (name : String) :
    DiffEngine.compareStep a b res name =
      mergeResults res (DiffEngine.compareStep a b DiffEngine.initialResults name) := by
  obtain ⟨⟨t, m, ad, de⟩, sh⟩ := res
  unfold DiffEngine.compareStep mergeResults DiffEngine.initialResults
  dsimp only
  split
  next h1 =>
    split
    next h2 => simp [*]
    next h2 => simp [*]
  next h1 =>
    split
    next h2 => simp [*]
    next h2 =>
      split
      next h3 => simp [*]
      next h3 => simp [*]

theorem foldl_compareStep_merge (a b : DiffEngine.Workbook) (l : List String)
    (s t : DiffEngine.Results) :
    l.foldl (DiffEngine.compareStep a b) (mergeResults s t) =
      mergeResults s (l.foldl (DiffEngine.compareStep a b) t) := by
  induction l generalizing t with
  | nil => rfl
  | cons n l ih =>
    show l.foldl _ (DiffEngine.compareStep a b (mergeResults s t) n) = _
    rw [compareStep_split a b (mergeResults s t) n, mergeResults_assoc,
      ← compareStep_split a b t n]
    exact ih _

/-- C9 (amended): `compare` accumulates into the engine's `results` state
rather than being a pure function of its inputs: a call on state `s` returns
`s`'s counters increased by, and `s`'s sheet list extended with, exactly the
result a fresh engine would produce (only `totalSheets` is overwritten).
Equality of two runs therefore holds only for a fresh engine per call. -/
theorem c9_compare_accumulates (s : DiffEngine.Results)
    (wa wb : DiffEngine.Workbook) :
    DiffEngine.compare s (some wa) (some wb) = Except.ok
      { summary :=
          { totalSheets := (compareFresh wa wb).summary.totalSheets
            modifiedSheets := s.summary.modifiedSheets +
              (compareFresh wa wb).summary.modifiedSheets
            addedSheets := s.summary.addedSheets +
              (compareFresh wa wb).summary.addedSheets
            deletedSheets := s.summary.deletedSheets +
              (compareFresh wa wb).summary.deletedSheets }
        sheets := s.sheets ++ (compareFresh wa wb).sheets } := by
  unfold compareFresh DiffEngine.compare
  dsimp only [Except.toOption]
  have hfold : (DiffEngine.dedupKeep (wa.sheetNames ++ wb.sheetNames)).foldl
        (DiffEngine.compareStep wa wb) s =
      mergeResults s ((DiffEngine.dedupKeep (wa.sheetNames ++ wb.sheetNames)).foldl
        (DiffEngine.compareStep wa wb) DiffEngine.initialResults) := by
    rw [← foldl_compareStep_merge, mergeResults_init]
  rw [hfold]
  unfold mergeResults
  rfl
/-! ### Duplicate-key collapse in the unified row list (claim C4) -/

theorem revLookup_cons (p : String × α) (ps : List (String × α)) (k : String) :
    revLookup (p :: ps) k =
      (revLookup ps k).or (if p.1 == k then some p.2 else none) := by
  unfold revLookup
  rw [List.reverse_cons, List.find?_append, optionMap_or]
  congr 1
  rw [find?_singleton]
  by_cases hp : p.1 = k <;> simp [hp]

theorem oldFold_eq_buildMap (rows : List Row) :
    (List.range rows.length).foldl (DiffViewer.oldRowStep rows) [] =
      buildMap ((DiffEngine.rowPairs "old-" rows).map
        (fun p => (p.1,
          DiffViewer.UnifiedRow.mk p.1 (some p.2.row) (some p.2.index) none none))) := by
  unfold buildMap buildMapFrom DiffEngine.rowPairs
  rw [List.map_map, List.foldl_map]
  rfl

theorem newFold_eq_pairFold (rows : List Row)
    (m : List (String × DiffViewer.UnifiedRow)) :
    (List.range rows.length).foldl (DiffViewer.newRowStep rows) m =
      (DiffEngine.rowPairs "new-" rows).foldl DiffViewer.newPairStep m := by
  unfold DiffEngine.rowPairs
  rw [List.foldl_map]
  rfl

theorem mapGet?_oldFold (rows : List Row) (k : String) :
    mapGet? ((List.range rows.length).foldl (DiffViewer.oldRowStep rows) []) k =
      (revLookup (DiffEngine.rowPairs "old-" rows) k).map
        (fun e => DiffViewer.UnifiedRow.mk k (some e.row) (some e.index) none none) := by
  rw [oldFold_eq_buildMap, mapGet?_buildMap]
  have h := revLookup_map_pairs
    (fun p : String × DiffEngine.RowEntry =>
      DiffViewer.UnifiedRow.mk p.1 (some p.2.row) (some p.2.index) none none)
    (DiffEngine.rowPairs "old-" rows) k
  rw [h]
  unfold revLookup
  cases hfind : (DiffEngine.rowPairs "old-" rows).reverse.find?
      (fun p => p.1 == k) with
  | none => rfl
  | some q =>
    have hq1 : q.1 = k := by simpa using List.find?_some hfind
    simp [hq1]

theorem mapGet?_newPairStep_foldl (ps : List (String × DiffEngine.RowEntry))
    (m : List (String × DiffViewer.UnifiedRow)) (k : String) :
    mapGet? (ps.foldl DiffViewer.newPairStep m) k =
      match revLookup ps k, mapGet? m k with
      | none, o => o
      | some e, some u =>
          some { u with newRow := some e.row, newIndex := some e.index }
      | some e, none => some ⟨k, none, none, some e.row, some e.index⟩ := by
  induction ps generalizing m with
  | nil =>
    simp [revLookup]
  | cons p ps ih =>
    rw [List.foldl_cons, ih, revLookup_cons]
    have hstep : mapGet? (DiffViewer.newPairStep m p) k =
        if k = p.1 then
          (match mapGet? m p.1 with
           | some u =>
               some { u with newRow := some p.2.row, newIndex := some p.2.index }
           | none =>
               some (⟨p.1, none, none, some p.2.row, some p.2.index⟩ :
                 DiffViewer.UnifiedRow))
        else mapGet? m k := by
      unfold DiffViewer.newPairStep
      cases mapGet? m p.1 <;> rw [mapGet?_mapSet]
    rw [hstep]
    by_cases hk : k = p.1
    · subst hk
      have hbeq : (p.1 == p.1) = true := by simp
      rw [hbeq]
      cases hrl : revLookup ps p.1 <;> cases hm : mapGet? m p.1 <;>
        simp [hrl, hm]
    · have hbeq : (p.1 == k) = false := by simp [Ne.symm hk]
      rw [hbeq, if_neg hk]
      cases hrl : revLookup ps k <;> simp

theorem rowFold_key_inv (oldRows : List Row)
    (ps : List (String × DiffEngine.RowEntry)) :
    ∀ q ∈ ps.foldl DiffViewer.newPairStep
        ((List.range oldRows.length).foldl (DiffViewer.oldRowStep oldRows) []),
      q.2.key = q.1 := by
  apply foldl_preserve
    (P := fun m : List (String × DiffViewer.UnifiedRow) => ∀ q ∈ m, q.2.key = q.1)
  · apply foldl_preserve
      (P := fun m : List (String × DiffViewer.UnifiedRow) => ∀ q ∈ m, q.2.key = q.1)
    · intro q hq
      cases hq
    · intro m i hm
      unfold DiffViewer.oldRowStep
      refine forall_mem_mapSet _ _ _ hm ?_
      rfl
  · intro m p hm
    unfold DiffViewer.newPairStep
    cases hget : mapGet? m p.1 with
    | some u =>
      simp only [hget]
      refine forall_mem_mapSet _ _ _ hm ?_
      exact hm (p.1, u) (mem_of_mapGet?_eq_some _ _ _ hget)
    | none =>
      simp only [hget]
      refine forall_mem_mapSet _ _ _ hm ?_
      rfl

theorem rowFold_keysNodup (oldRows : List Row)
    (ps : List (String × DiffEngine.RowEntry)) :
    keysNodup (ps.foldl DiffViewer.newPairStep
      ((List.range oldRows.length).foldl (DiffViewer.oldRowStep oldRows) [])) := by
  apply foldl_preserve (P := keysNodup)
  · rw [oldFold_eq_buildMap]
    exact keysNodup_buildMap _
  · intro m p hm
    unfold DiffViewer.newPairStep
    cases mapGet? m p.1 <;> exact keysNodup_mapSet _ _ _ hm

/-- C4 (amended): rows sharing a key are not paired by occurrence order.
The unified row list holds exactly one entry per distinct key (its keys are
pairwise distinct), and that entry pairs the datasets' `last` occurrences of
the key: its A side is the last A row generating the key (or null), its B
side the last B row generating the key (or null); earlier duplicate
occurrences are dropped and never classified Added or Deleted. -/
theorem c4_duplicate_keys_collapse (oldData newData : List Row) :
    (((DiffViewer.getAllRows oldData newData).map (fun u => u.key)).Nodup) ∧
    (∀ u ∈ DiffViewer.getAllRows oldData newData,
      u.oldRow = (revLookup (DiffEngine.rowPairs "old-" (oldData.drop 1)) u.key).map
        (fun e => e.row) ∧
      u.oldIndex = (revLookup (DiffEngine.rowPairs "old-" (oldData.drop 1)) u.key).map
        (fun e => e.index) ∧
      u.newRow = (revLookup (DiffEngine.rowPairs "new-" (newData.drop 1)) u.key).map
        (fun e => e.row) ∧
      u.newIndex = (revLookup (DiffEngine.rowPairs "new-" (newData.drop 1)) u.key).map
        (fun e => e.index)) := by
  have hconv : DiffViewer.getAllRows oldData newData =
      ((DiffEngine.rowPairs "new-" (newData.drop 1)).foldl DiffViewer.newPairStep
        ((List.range (oldData.drop 1).length).foldl
          (DiffViewer.oldRowStep (oldData.drop 1)) [])).map Prod.snd := by
    unfold DiffViewer.getAllRows
    dsimp only
    rw [newFold_eq_pairFold]
  have hinv := rowFold_key_inv (oldData.drop 1)
    (DiffEngine.rowPairs "new-" (newData.drop 1))
  have hnd := rowFold_keysNodup (oldData.drop 1)
    (DiffEngine.rowPairs "new-" (newData.drop 1))
  constructor
  · rw [hconv, List.map_map]
    have heq : (((DiffEngine.rowPairs "new-" (newData.drop 1)).foldl
          DiffViewer.newPairStep
          ((List.range (oldData.drop 1).length).foldl
            (DiffViewer.oldRowStep (oldData.drop 1)) [])).map
        ((fun u : DiffViewer.UnifiedRow => u.key) ∘ Prod.snd)) =
        (((DiffEngine.rowPairs "new-" (newData.drop 1)).foldl
          DiffViewer.newPairStep
          ((List.range (oldData.drop 1).length).foldl
            (DiffViewer.oldRowStep (oldData.drop 1)) [])).map Prod.fst) :=
      List.map_congr_left (fun q hq => hinv q hq)
    rw [heq]
    exact hnd
  · intro u hu
    rw [hconv] at hu
    obtain ⟨q, hq, hqu⟩ := List.mem_map.mp hu
    have hkey : u.key = q.1 := by
      rw [← hqu]
      exact hinv q hq
    have hget : mapGet? ((DiffEngine.rowPairs "new-" (newData.drop 1)).foldl
        DiffViewer.newPairStep
        ((List.range (oldData.drop 1).length).foldl
          (DiffViewer.oldRowStep (oldData.drop 1)) [])) q.1 = some q.2 :=
      mapGet?_eq_some_of_mem _ _ _ hnd hq
    rw [mapGet?_newPairStep_foldl, mapGet?_oldFold] at hget
    subst hqu
    rw [hkey]
    cases hrlN : revLookup (DiffEngine.rowPairs "new-" (newData.drop 1)) q.1 with
    | none =>
      rw [hrlN] at hget
      cases hrlO : revLookup (DiffEngine.rowPairs "old-" (oldData.drop 1)) q.1 with
      | none =>
        rw [hrlO] at hget
        cases hget
      | some e =>
        rw [hrlO] at hget
        injection hget with hq2
        rw [← hq2]
        simp
    | some e =>
      rw [hrlN] at hget
      cases hrlO : revLookup (DiffEngine.rowPairs "old-" (oldData.drop 1)) q.1 with
      | none =>
        rw [hrlO] at hget
        injection hget with hq2
        rw [← hq2]
        simp
      | some e2 =>
        rw [hrlO] at hget
        injection hget with hq2
        rw [← hq2]
        simp

/-- Witness for C4: the characterization applied to the single unified row
of `exC4A` versus `exC4B` (both datasets have key "x" twice; the entry pairs
row values "2" and "4", the two last occurrences). -/
theorem c4_duplicate_keys_collapse_witness :
    (⟨"x", some [Value.vstr "x", Value.vstr "2"], some 3,
        some [Value.vstr "x", Value.vstr "4"], some 3⟩ :
      DiffViewer.UnifiedRow).oldRow =
      (revLookup (DiffEngine.rowPairs "old-" (exC4A.drop 1)) "x").map
        (fun e => e.row) ∧
    (⟨"x", some [Value.vstr "x", Value.vstr "2"], some 3,
        some [Value.vstr "x", Value.vstr "4"], some 3⟩ :
      DiffViewer.UnifiedRow).oldIndex =
      (revLookup (DiffEngine.rowPairs "old-" (exC4A.drop 1)) "x").map
        (fun e => e.index) ∧
    (⟨"x", some [Value.vstr "x", Value.vstr "2"], some 3,
        some [Value.vstr "x", Value.vstr "4"], some 3⟩ :
      DiffViewer.UnifiedRow).newRow =
      (revLookup (DiffEngine.rowPairs "new-" (exC4B.drop 1)) "x").map
        (fun e => e.row) ∧
    (⟨"x", some [Value.vstr "x", Value.vstr "2"], some 3,
        some [Value.vstr "x", Value.vstr "4"], some 3⟩ :
      DiffViewer.UnifiedRow).newIndex =
      (revLookup (DiffEngine.rowPairs "new-" (exC4B.drop 1)) "x").map
        (fun e => e.index) :=
  (c4_duplicate_keys_collapse exC4A exC4B).2
    ⟨"x", some [Value.vstr "x", Value.vstr "2"], some 3,
      some [Value.vstr "x", Value.vstr "4"], some 3⟩ (by decide)
/-! ### Column-reorder invariance (claim C1) -/

theorem getD_lt (l : List α) (i : Nat) (d : α) (h : i < l.length) :
    l.getD i d = l[i] := by
  rw [List.getD_eq_getElem?_getD, List.getElem?_eq_getElem h]
  rfl

theorem cellAt_lt (r : Row) (j : Nat) (h : j < r.length) : cellAt r j = r[j] :=
  getD_lt r j _ h

theorem cellAt_permuteRow (sigma : List Nat) (r : Row) (j : Nat)
    (hj : j < sigma.length) :
    cellAt (Spec.permuteRow sigma r) j = cellAt r (sigma.getD j 0) := by
  unfold Spec.permuteRow cellAt
  rw [List.getD_eq_getElem?_getD, List.getElem?_map, List.getElem?_eq_getElem hj,
    getD_lt sigma j 0 hj]
  rfl

theorem getD_map_row (l : List Row) (f : Row → Row) (i : Nat)
    (h : i < l.length) : (l.map f).getD i [] = f (l.getD i []) := by
  rw [getD_lt _ i [] (by simpa using h), getD_lt _ i [] h, List.getElem_map]

theorem jsStrictEq_refl (v : Value) : jsStrictEq v v = true := by
  cases v <;> simp [jsStrictEq]

theorem two_le_count_of_two_pos (L : List String) (j1 j2 : Nat) (v : String)
    (h12 : j1 < j2) (hj2 : j2 < L.length)
    (hv1 : L[j1] = v) (hv2 : L[j2] = v) : 2 ≤ L.count v := by
  have hsplit := List.take_append_drop (j1 + 1) L
  have hmem1 : v ∈ L.take (j1 + 1) := by
    apply List.getElem?_mem (n := j1)
    rw [List.getElem?_take, if_pos (Nat.lt_succ_self j1),
      List.getElem?_eq_getElem (by omega)]
    rw [hv1]
  have hmem2 : v ∈ L.drop (j1 + 1) := by
    apply List.getElem?_mem (n := j2 - (j1 + 1))
    rw [List.getElem?_drop]
    have harith : j1 + 1 + (j2 - (j1 + 1)) = j2 := by omega
    rw [harith, List.getElem?_eq_getElem hj2, hv2]
  calc 2 ≤ (L.take (j1 + 1)).count v + (L.drop (j1 + 1)).count v := by
        have c1 := List.count_pos_iff.mpr hmem1
        have c2 := List.count_pos_iff.mpr hmem2
        omega
    _ = L.count v := by rw [← List.count_append, hsplit]

/-- Positions of non-blank header contents are unique when the non-blank
trimmed header texts are pairwise distinct. -/
theorem header_pos_unique (hdr : Row)
    (hnodup : ((hdr.map trimVal).filter (fun c => c ≠ "")).Nodup)
    (j1 j2 : Nat) (h1 : j1 < hdr.length) (h2 : j2 < hdr.length)
    (heq : trimVal (cellAt hdr j1) = trimVal (cellAt hdr j2))
    (hne : trimVal (cellAt hdr j1) ≠ "") : j1 = j2 := by
  by_contra hne12
  have hb1 : j1 < (hdr.map trimVal).length := by simpa using h1
  have hb2 : j2 < (hdr.map trimVal).length := by simpa using h2
  have hLj1 : (hdr.map trimVal)[j1] = trimVal (cellAt hdr j1) := by
    rw [List.getElem_map, cellAt_lt hdr j1 h1]
  have hLj2 : (hdr.map trimVal)[j2] = trimVal (cellAt hdr j1) := by
    rw [List.getElem_map, heq, cellAt_lt hdr j2 h2]
  have hcount : 2 ≤ (hdr.map trimVal).count (trimVal (cellAt hdr j1)) := by
    rcases Nat.lt_or_ge j1 j2 with h12 | h21
    · exact two_le_count_of_two_pos _ j1 j2 _ h12 hb2 hLj1 hLj2
    · have h21' : j2 < j1 := by omega
      exact two_le_count_of_two_pos _ j2 j1 _ h21' hb1 hLj2 hLj1
  have hcf : ((hdr.map trimVal).filter (fun c => c ≠ "")).count
      (trimVal (cellAt hdr j1)) = (hdr.map trimVal).count (trimVal (cellAt hdr j1)) :=
    List.count_filter (by simp [hne])
  have hle := List.nodup_iff_count_le_one.mp hnodup (trimVal (cellAt hdr j1))
  rw [hcf] at hle
  omega
theorem perm_rowPairs (sigma : List Nat) (n : Nat) (rest : List Row)
    (hn : sigma.length = n) (hfix : sigma.getD 0 0 = 0)
    (hkeys : ∀ r ∈ rest, trimVal (cellAt r 0) ≠ "")
    (hlenr : ∀ r ∈ rest, r.length = n) :
    DiffEngine.rowPairs "new-" (rest.map (Spec.permuteRow sigma)) =
      (DiffEngine.rowPairs "old-" rest).map
        (fun p => (p.1,
          DiffEngine.RowEntry.mk (Spec.permuteRow sigma p.2.row) p.2.index)) := by
  unfold DiffEngine.rowPairs
  rw [List.length_map, List.map_map]
  apply List.map_congr_left
  intro i hi
  rw [List.mem_range] at hi
  have hr : (rest.map (Spec.permuteRow sigma)).getD i [] =
      Spec.permuteRow sigma (rest.getD i []) := getD_map_row rest _ i hi
  have hrmem : rest.getD i [] ∈ rest := by
    rw [getD_lt rest i [] hi]
    exact List.getElem_mem hi
  have hkey := hkeys _ hrmem
  have hnpos : 0 < n := by
    by_contra hz
    have hn0 : (rest.getD i []).length = 0 := by
      rw [hlenr _ hrmem]
      omega
    rw [List.length_eq_zero.mp hn0] at hkey
    exact hkey rfl
  have hfix0 : cellAt (Spec.permuteRow sigma (rest.getD i [])) 0 =
      cellAt (rest.getD i []) 0 := by
    rw [cellAt_permuteRow sigma _ 0 (by omega), hfix]
  have hknew : DiffEngine.rowKeyOf "new-" (Spec.permuteRow sigma (rest.getD i [])) i =
      trimVal (cellAt (rest.getD i []) 0) := by
    unfold DiffEngine.rowKeyOf
    dsimp only
    rw [hfix0, if_neg hkey]
  have hkold : DiffEngine.rowKeyOf "old-" (rest.getD i []) i =
      trimVal (cellAt (rest.getD i []) 0) := by
    unfold DiffEngine.rowKeyOf
    dsimp only
    rw [if_neg hkey]
  dsimp only [Function.comp]
  rw [hr, hknew, hkold]

theorem perm_rowMapGet (sigma : List Nat) (n : Nat) (rest : List Row)
    (hn : sigma.length = n) (hfix : sigma.getD 0 0 = 0)
    (hkeys : ∀ r ∈ rest, trimVal (cellAt r 0) ≠ "")
    (hlenr : ∀ r ∈ rest, r.length = n) (k : String) :
    mapGet? (DiffEngine.buildRowMap "new-" (rest.map (Spec.permuteRow sigma))) k =
      (mapGet? (DiffEngine.buildRowMap "old-" rest) k).map
        (fun e => DiffEngine.RowEntry.mk (Spec.permuteRow sigma e.row) e.index) := by
  unfold DiffEngine.buildRowMap
  rw [mapGet?_buildMap, mapGet?_buildMap,
    perm_rowPairs sigma n rest hn hfix hkeys hlenr,
    revLookup_map_snd
      (fun e => DiffEngine.RowEntry.mk (Spec.permuteRow sigma e.row) e.index)
      (DiffEngine.rowPairs "old-" rest) k]

theorem perm_detectRowChanges (sigma : List Nat) (n : Nat) (hdr : Row)
    (rest : List Row)
    (hn : sigma.length = n) (hfix : sigma.getD 0 0 = 0)
    (hkeys : ∀ r ∈ rest, trimVal (cellAt r 0) ≠ "")
    (hlenr : ∀ r ∈ rest, r.length = n) :
    DiffEngine.detectRowChanges (hdr :: rest)
      (Spec.permuteData sigma (hdr :: rest)) = [] := by
  have hhas : ∀ k,
      mapHas (DiffEngine.buildRowMap "new-" (rest.map (Spec.permuteRow sigma))) k =
      mapHas (DiffEngine.buildRowMap "old-" rest) k := by
    intro k
    unfold mapHas
    rw [perm_rowMapGet sigma n rest hn hfix hkeys hlenr k]
    cases mapGet? (DiffEngine.buildRowMap "old-" rest) k <;> rfl
  unfold DiffEngine.detectRowChanges
  dsimp only
  rw [show ((hdr :: rest).drop 1) = rest from rfl,
    show ((Spec.permuteData sigma (hdr :: rest)).drop 1) =
      rest.map (Spec.permuteRow sigma) from rfl]
  rw [List.append_eq_nil]
  constructor <;> rw [List.filterMap_eq_nil_iff] <;> intro p hp
  · have h1 : mapHas (DiffEngine.buildRowMap "new-"
        (rest.map (Spec.permuteRow sigma))) p.1 = true := mapHas_of_mem _ p hp
    rw [hhas p.1] at h1
    rw [if_pos h1]
  · have h1 : mapHas (DiffEngine.buildRowMap "old-" rest) p.1 = true :=
      mapHas_of_mem _ p hp
    rw [if_pos ((hhas p.1).trans h1)]

theorem perm_detectColumnChanges (sigma : List Nat) (n : Nat) (hdr : Row)
    (rest : List Row)
    (hperm : sigma.Perm (List.range n)) (hhl : hdr.length = n) :
    DiffEngine.detectColumnChanges (hdr :: rest)
      (Spec.permuteData sigma (hdr :: rest)) = [] := by
  have hn : sigma.length = n := by rw [hperm.length_eq, List.length_range]
  have hmems : ∀ x ∈ sigma, x < n := by
    intro x hx
    rw [← List.mem_range]
    exact hperm.mem_iff.mp hx
  unfold DiffEngine.detectColumnChanges
  rw [if_neg (by simp [Spec.permuteData])]
  dsimp only
  rw [show ((hdr :: rest).getD 0 []) = hdr from rfl,
    show ((Spec.permuteData sigma (hdr :: rest)).getD 0 []) =
      Spec.permuteRow sigma hdr from rfl]
  rw [List.append_eq_nil]
  have hplen : (Spec.permuteRow sigma hdr).length = sigma.length := by
    unfold Spec.permuteRow
    rw [List.length_map]
  constructor <;> rw [List.filterMap_eq_nil_iff] <;> intro j hj <;>
    rw [List.mem_range] at hj
  · rw [hplen] at hj
    have hperm_j : cellAt (Spec.permuteRow sigma hdr) j =
        cellAt hdr (sigma.getD j 0) := cellAt_permuteRow _ _ _ hj
    have hi0 : sigma.getD j 0 < n := by
      apply hmems
      rw [getD_lt sigma j 0 hj]
      exact List.getElem_mem hj
    by_cases hblank : trimVal (cellAt (Spec.permuteRow sigma hdr) j) = ""
    · rw [if_neg (not_not_intro hblank)]
      have hcont : (((List.range hdr.length).map colName).contains (colName j)) = true := by
        have hmem : colName j ∈ (List.range hdr.length).map colName :=
          List.mem_map.mpr ⟨j, List.mem_range.mpr (by omega), rfl⟩
        simpa using hmem
      rw [if_pos hcont]
    · rw [if_pos hblank]
      have hcont : (((hdr.map trimVal).filter (fun c => c ≠ "")).contains
          (trimVal (cellAt (Spec.permuteRow sigma hdr) j))) = true := by
        have hmem : trimVal (cellAt (Spec.permuteRow sigma hdr) j) ∈
            (hdr.map trimVal).filter (fun c => c ≠ "") := by
          rw [List.mem_filter]
          refine ⟨?_, by simpa using hblank⟩
          rw [hperm_j]
          apply List.mem_map.mpr
          refine ⟨cellAt hdr (sigma.getD j 0), ?_, rfl⟩
          rw [cellAt_lt hdr _ (by omega)]
          exact List.getElem_mem (by omega)
        simpa using hmem
      rw [if_pos hcont]
  · by_cases hblank : trimVal (cellAt hdr j) = ""
    · rw [if_neg (not_not_intro hblank)]
      have hcont : (((List.range (Spec.permuteRow sigma hdr).length).map
          colName).contains (colName j)) = true := by
        have hmem : colName j ∈
            (List.range (Spec.permuteRow sigma hdr).length).map colName :=
          List.mem_map.mpr ⟨j, List.mem_range.mpr (by rw [hplen]; omega), rfl⟩
        simpa using hmem
      rw [if_pos hcont]
    · rw [if_pos hblank]
      have hcont : ((((Spec.permuteRow sigma hdr).map trimVal).filter
          (fun c => c ≠ "")).contains (trimVal (cellAt hdr j))) = true := by
        have hjmem : j ∈ sigma := hperm.mem_iff.mpr (List.mem_range.mpr (by omega))
        have hmem : trimVal (cellAt hdr j) ∈
            ((Spec.permuteRow sigma hdr).map trimVal).filter (fun c => c ≠ "") := by
          rw [List.mem_filter]
          refine ⟨?_, by simpa using hblank⟩
          unfold Spec.permuteRow
          rw [List.map_map]
          exact List.mem_map.mpr ⟨j, hjmem, rfl⟩
        simpa using hmem
      rw [if_pos hcont]

theorem perm_compareCells (sigma : List Nat) (n : Nat) (hdr : Row)
    (rest : List Row)
    (hperm : sigma.Perm (List.range n)) (hfix : sigma.getD 0 0 = 0)
    (hhl : hdr.length = n)
    (hkeys : ∀ r ∈ rest, trimVal (cellAt r 0) ≠ "")
    (hlenr : ∀ r ∈ rest, r.length = n)
    (hhdr : ((hdr.map trimVal).filter (fun c => c ≠ "")).Nodup) :
    DiffEngine.compareCells (hdr :: rest)
      (Spec.permuteData sigma (hdr :: rest)) = [] := by
  have hn : sigma.length = n := by rw [hperm.length_eq, List.length_range]
  have hmems : ∀ x ∈ sigma, x < n := by
    intro x hx
    rw [← List.mem_range]
    exact hperm.mem_iff.mp hx
  unfold DiffEngine.compareCells
  dsimp only
  rw [show ((hdr :: rest).getD 0 []) = hdr from rfl,
    show ((Spec.permuteData sigma (hdr :: rest)).getD 0 []) =
      Spec.permuteRow sigma hdr from rfl,
    show ((hdr :: rest).drop 1) = rest from rfl,
    show ((Spec.permuteData sigma (hdr :: rest)).drop 1) =
      rest.map (Spec.permuteRow sigma) from rfl]
  rw [List.flatMap_eq_nil_iff]
  intro p hp
  have hnd : keysNodup (DiffEngine.buildRowMap "old-" rest) := by
    unfold DiffEngine.buildRowMap
    exact keysNodup_buildMap _
  have hpget : mapGet? (DiffEngine.buildRowMap "old-" rest) p.1 = some p.2 :=
    mapGet?_eq_some_of_mem _ _ _ hnd hp
  rw [perm_rowMapGet sigma n rest hn hfix hkeys hlenr p.1, hpget]
  rw [show (Option.map
      (fun e => DiffEngine.RowEntry.mk (Spec.permuteRow sigma e.row) e.index)
      (some p.2)) = some (DiffEngine.RowEntry.mk (Spec.permuteRow sigma p.2.row)
        p.2.index) from rfl]
  dsimp only
  rw [List.flatMap_eq_nil_iff]
  intro q hq
  unfold DiffEngine.headerMapOf at hq
  have hqpairs := mem_buildMap _ _ hq
  obtain ⟨j, hjmem, hjq⟩ := List.mem_filterMap.mp hqpairs
  rw [List.mem_range] at hjmem
  by_cases hjb : trimVal (cellAt hdr j) = ""
  · rw [if_pos hjb] at hjq
    cases hjq
  · rw [if_neg hjb] at hjq
    injection hjq with hpair
    cases hfound : mapGet? (DiffEngine.headerMapOf (Spec.permuteRow sigma hdr)) q.1 with
    | none => rfl
    | some jn =>
      dsimp only
      have hjnpairs : (q.1, jn) ∈
          (List.range (Spec.permuteRow sigma hdr).length).filterMap fun i =>
            let c := trimVal (cellAt (Spec.permuteRow sigma hdr) i)
            if c = "" then none else some (c, i) := by
        unfold DiffEngine.headerMapOf at hfound
        rw [mapGet?_buildMap] at hfound
        exact revLookup_eq_some_mem _ _ _ hfound
      obtain ⟨j2, hj2mem, hj2q⟩ := List.mem_filterMap.mp hjnpairs
      rw [List.mem_range] at hj2mem
      have hj2σ : j2 < sigma.length := by
        have : (Spec.permuteRow sigma hdr).length = sigma.length := by
          unfold Spec.permuteRow
          rw [List.length_map]
        omega
      by_cases hj2b : trimVal (cellAt (Spec.permuteRow sigma hdr) j2) = ""
      · rw [if_pos hj2b] at hj2q
        cases hj2q
      · rw [if_neg hj2b] at hj2q
        injection hj2q with hpair2
        have hq1 : q.1 = trimVal (cellAt hdr j) := by rw [← hpair]
        have hq2 : q.2 = j := by rw [← hpair]
        have hjn2 : jn = j2 := by
          have := congrArg Prod.snd hpair2
          simpa using this.symm
        have hcnt2 : trimVal (cellAt (Spec.permuteRow sigma hdr) j2) = q.1 := by
          have := congrArg Prod.fst hpair2
          simpa using this
        have hperm_j2 : cellAt (Spec.permuteRow sigma hdr) j2 =
            cellAt hdr (sigma.getD j2 0) := cellAt_permuteRow _ _ _ hj2σ
        have hi0 : sigma.getD j2 0 < n := by
          apply hmems
          rw [getD_lt sigma j2 0 hj2σ]
          exact List.getElem_mem hj2σ
        have heqc : trimVal (cellAt hdr (sigma.getD j2 0)) =
            trimVal (cellAt hdr j) := by
          rw [← hperm_j2, hcnt2, hq1]
        have hij : sigma.getD j2 0 = j :=
          header_pos_unique hdr hhdr (sigma.getD j2 0) j (by omega) hjmem heqc
            (by rw [heqc]; exact hjb)
        have hval : cellAt (Spec.permuteRow sigma p.2.row) jn =
            cellAt p.2.row q.2 := by
          rw [hjn2, cellAt_permuteRow _ _ _ hj2σ, hij, hq2]
        rw [hval, if_pos (jsStrictEq_refl _)]

/-- C1 (amended): column-reorder invariance holds under the conditions the
engine actually needs — the permutation fixes physical column A (the row-key
column), every data row has a non-blank key in column A, and the non-blank
trimmed header texts are pairwise distinct.  Then comparing a dataset with
its column-permuted copy yields no column changes, no row changes and no
cell differences. -/
theorem c1_column_reorder_invariance (n : Nat) (sigma : List Nat)
    (oldData : List Row)
    (hperm : sigma.Perm (List.range n))
    (hlen : ∀ r ∈ oldData, r.length = n)
    (hfix : sigma.getD 0 0 = 0)
    (hkeys : ∀ r ∈ oldData.drop 1, trimVal (cellAt r 0) ≠ "")
    (hhdr : (((oldData.getD 0 []).map trimVal).filter (fun c => c ≠ "")).Nodup) :
    DiffEngine.detectColumnChanges oldData (Spec.permuteData sigma oldData) = [] ∧
    DiffEngine.detectRowChanges oldData (Spec.permuteData sigma oldData) = [] ∧
    DiffEngine.compareCells oldData (Spec.permuteData sigma oldData) = [] := by
  cases oldData with
  | nil => exact ⟨rfl, rfl, rfl⟩
  | cons hdr rest =>
    have hn : sigma.length = n := by rw [hperm.length_eq, List.length_range]
    have hhl : hdr.length = n := hlen hdr (List.mem_cons_self _ _)
    have hkeys' : ∀ r ∈ rest, trimVal (cellAt r 0) ≠ "" := fun r hr => hkeys r hr
    have hlenr : ∀ r ∈ rest, r.length = n :=
      fun r hr => hlen r (List.mem_cons_of_mem _ hr)
    have hhdr' : ((hdr.map trimVal).filter (fun c => c ≠ "")).Nodup := hhdr
    exact ⟨perm_detectColumnChanges sigma n hdr rest hperm hhl,
      perm_detectRowChanges sigma n hdr rest hn hfix hkeys' hlenr,
      perm_compareCells sigma n hdr rest hperm hfix hhl hkeys' hlenr hhdr'⟩

/-- Witness for C1: the amended invariance evaluated at a concrete
three-column dataset and the permutation swapping columns B and C. -/
theorem c1_column_reorder_invariance_witness :
    DiffEngine.detectColumnChanges exC1W (Spec.permuteData [0, 2, 1] exC1W) = [] ∧
    DiffEngine.detectRowChanges exC1W (Spec.permuteData [0, 2, 1] exC1W) = [] ∧
    DiffEngine.compareCells exC1W (Spec.permuteData [0, 2, 1] exC1W) = [] :=
  c1_column_reorder_invariance 3 [0, 2, 1] exC1W (by decide) (by decide)
    (by decide) (by decide) (by decide)
end ExcelDiff
